import Mathlib

/-!
# git-codereview `submit`: a shallow embedding of `cmdSubmit`

The source is `src/git-codereview/submit.go`.  `cmdSubmit` talks to a local
git repository and to a Gerrit server; here every answer of those two
collaborators is a field of a `World`, the calls made are recorded in a
trace, and `dief` / `os.Exit` end the run with a result that keeps the trace.

Line numbers in the comments refer to `submit.go`.
-/

namespace GitCodereview

/-! ## Data model -/

/-- A local commit: the fields of `Commit` that `cmdSubmit` reads. -/
structure Commit where
  Hash : String
  ChangeID : String
  deriving DecidableEq, Repr

/-- The branch returned by `CurrentBranch()`: its name and its pending
commits (`b.Pending()`). -/
structure Branch where
  Name : String
  Pending : List Commit
  deriving DecidableEq, Repr

/-- A Gerrit account, the target of the `Approved` and `Rejected` pointers of
a label. -/
structure GerritAccount where
  Name : String
  deriving DecidableEq, Repr

/-- A Gerrit label.  `Approved` and `Rejected` are pointers in the source,
tested against `nil`; `none` is `nil`. -/
structure GerritLabel where
  Optional : Bool
  Approved : Option GerritAccount
  Rejected : Option GerritAccount
  deriving DecidableEq, Repr

/-- A Gerrit change as fetched by `b.GerritChange`.  `Labels` is the Go map
from label name to label, kept as an association list; every label pointer
stored in the map is taken to be non-nil. -/
structure GerritChange where
  Status : String
  CurrentRevision : String
  Mergeable : Bool
  Labels : List (String × GerritLabel)
  deriving DecidableEq, Repr

/-- Modelled from the spec: `LabelNames` is not in `src/`; the spec says the
approval check iterates "all label names attached to the change".  The names
are the keys of `Labels`, in the order of the association list, so that a
result proved for every list holds for every iteration order. -/
def GerritChange.LabelNames (g : GerritChange) : List String :=
  g.Labels.map Prod.fst

/-- A formatted message: the format string and its arguments, as handed to
`dief` or `printf`. -/
structure Msg where
  format : String
  args : List String
  deriving DecidableEq, Repr

/-- A call made by `cmdSubmit` to one of its collaborators. -/
inductive Call where
  /-- The call `checkStaged("submit")`. -/
  | checkStaged
  /-- The call `checkUnstaged("submit")`. -/
  | checkUnstaged
  /-- The call `b.GerritChange(c, extra...)`. -/
  | gerritChange (c : Commit) (extra : List String)
  /-- The calls `run(cmd, args...)` and `runErr(cmd, args...)`. -/
  | exec (cmd : String) (args : List String)
  /-- The call `gerritAPI(url, body, nil)`. -/
  | gerritAPI (url : String) (body : String)
  /-- The call `time.Sleep(d)`, with `d` in nanoseconds. -/
  | sleep (d : Int)
  /-- The call `printf(format, args...)`. -/
  | printf (m : Msg)
  deriving DecidableEq, Repr

/-- Is the call a `git push`? -/
def Call.isPush : Call → Bool
  | .exec "git" ("push" :: _) => true
  | _ => false

/-- Is the call a `git checkout`? -/
def Call.isCheckout : Call → Bool
  | .exec "git" ("checkout" :: _) => true
  | _ => false

/-- Is the call a `git fetch`? -/
def Call.isGitFetch : Call → Bool
  | .exec "git" ("fetch" :: _) => true
  | _ => false

/-- Is the call a request to the Gerrit REST API (the submit request is the
only one `cmdSubmit` makes through `gerritAPI`)? -/
def Call.isSubmit : Call → Bool
  | .gerritAPI _ _ => true
  | _ => false

/-- Is the call a fetch of the Gerrit change? -/
def Call.isChangeFetch : Call → Bool
  | .gerritChange _ _ => true
  | _ => false

/-- Is the call a sleep? -/
def Call.isSleep : Call → Bool
  | .sleep _ => true
  | _ => false

/-- Everything `cmdSubmit` reads from outside: the parsed command line, the
local repository and the answers of the collaborators.  The functions behind
these fields (`CommitByHash`, `DefaultCommit`, `checkStaged`, `checkUnstaged`,
`GerritChange`, `PushSpec`, `fullChangeID`, `run`, `runErr`, `gerritAPI`) are
not in `src/`; their results are parameters. -/
structure World where
  /-- The value of `flags.Args()` after `flags.Parse(args)`. -/
  flagArgs : List String
  /-- The value of `*noRun`. -/
  noRun : Bool
  /-- The value of `CurrentBranch()`. -/
  b : Branch
  /-- The commit the branch points to before the command runs. -/
  head : String
  /-- The result of `b.CommitByHash("submit", h)`; an error is the message it
  dies with. -/
  commitByHash : String → Except String Commit
  /-- The result of `b.DefaultCommit("submit")`; an error is the message it
  dies with. -/
  defaultCommit : Except String Commit
  /-- The message `checkStaged` dies with, when there are staged changes. -/
  staged : Option String
  /-- The message `checkUnstaged` dies with, when there are unstaged
  changes. -/
  unstaged : Option String
  /-- The answer to the n-th call (from 0) of `b.GerritChange`. -/
  gerritChange : Nat → Except String GerritChange
  /-- The value of `b.PushSpec(c)`. -/
  pushSpec : Commit → String
  /-- The value of `fullChangeID(b, c)`. -/
  fullChangeID : Commit → String
  /-- The error of `git push`, if it fails. -/
  pushErr : Option String
  /-- The error of the submit request, if it fails. -/
  submitErr : Option String
  /-- The error of `git fetch`, if it fails. -/
  fetchErr : Option String
  /-- The error of `git checkout -B`, if it fails. -/
  checkoutErr : Option String

/-- The state threaded through a run: the calls made so far, the number of
`GerritChange` calls among them, and the commit the local branch points to. -/
structure St where
  trace : List Call
  fetched : Nat
  branchPtr : String
  deriving DecidableEq, Repr

/-- The state in which a run starts. -/
def St.init (w : World) : St := ⟨[], 0, w.head⟩

/-- How a step ends: it returns a value, or the process exits through `dief`
(message on standard error, exit status 1), or through the usage message
(exit status 2). -/
inductive Res (α : Type) where
  | ok (a : α) (s : St)
  | died (m : Msg) (s : St)
  | usage (s : St)
  deriving DecidableEq, Repr

/-- The state in which a step ends. -/
def Res.st {α : Type} : Res α → St
  | .ok _ s => s
  | .died _ s => s
  | .usage s => s

/-- A step of the command. -/
def Cmd (α : Type) : Type := St → Res α

/-- Return without effect. -/
def Cmd.pure {α : Type} (a : α) : Cmd α := fun s => .ok a s

/-- Sequencing: an exit ends the run. -/
def Cmd.bind {α β : Type} (m : Cmd α) (f : α → Cmd β) : Cmd β := fun s =>
  match m s with
  | .ok a s1 => f a s1
  | .died e s1 => .died e s1
  | .usage s1 => .usage s1

instance : Monad Cmd where
  pure := Cmd.pure
  bind := Cmd.bind

/-- Record a call in the trace. -/
def call (c : Call) : Cmd Unit := fun s => .ok () { s with trace := s.trace ++ [c] }

/-- Modelled from the spec: `dief` is not in `src/`; an error it reports is
"fatal to the invocation: the orchestrator aborts immediately ... and surfaces
a single descriptive message".  The call `dief(format, args...)` ends the run
with the message, in the state reached. -/
def dief {α : Type} (format : String) (args : List String) : Cmd α :=
  fun s => .died ⟨format, args⟩ s

/-- The function `printf(format, args...)`. -/
def printf (format : String) (args : List String) : Cmd Unit :=
  call (.printf ⟨format, args⟩)

/-- The usage exit of lines 20-23: `flags.Usage(); os.Exit(2)`. -/
def usageExit {α : Type} : Cmd α := fun s => .usage s

/-! ## Collaborators -/

/-- Modelled from the spec: `checkStaged` is not in `src/`; the
PreconditionGate "fails ... if there are staged or unstaged local
modifications of any kind" and has no side effects. -/
def checkStaged (w : World) : Cmd Unit := do
  call .checkStaged
  match w.staged with
  | some e => dief "%v" [e]
  | none => pure ()

/-- Modelled from the spec: `checkUnstaged` is not in `src/`; see
`checkStaged`. -/
def checkUnstaged (w : World) : Cmd Unit := do
  call .checkUnstaged
  match w.unstaged with
  | some e => dief "%v" [e]
  | none => pure ()

/-- The call `b.GerritChange(c, "LABELS", "CURRENT_REVISION")`: the answer is
the next one of the world. -/
def gerritChange (w : World) (c : Commit) : Cmd (Except String GerritChange) :=
  fun s => .ok (w.gerritChange s.fetched)
    { s with trace := s.trace ++ [.gerritChange c ["LABELS", "CURRENT_REVISION"]],
             fetched := s.fetched + 1 }

/-- The call `time.Sleep(d)`. -/
def sleep (d : Int) : Cmd Unit := call (.sleep d)

/-- The call `runErr(cmd, args...)` with the error it returns. -/
def runErr (cmd : String) (args : List String) (err : Option String) :
    Cmd (Option String) := do
  call (.exec cmd args)
  pure err

/-- Modelled from the spec: `run` is not in `src/`; a failing command is
fatal ("all other network calls fail immediately and propagate to the caller
without retry"): `run` dies with the error of the command. -/
def run (cmd : String) (args : List String) (err : Option String) : Cmd Unit := do
  match (← runErr cmd args err) with
  | some e => dief "%v" [e]
  | none => pure ()

/-- The call `gerritAPI(url, body, nil)` with the error it returns. -/
def gerritAPI (url body : String) (err : Option String) : Cmd (Option String) := do
  call (.gerritAPI url body)
  pure err

/-- Modelled from the spec: the effect of a successful
`git checkout -q -B name rev --` on the branch pointer ("reset the branch
pointer to the now-merged revision"); a failed checkout leaves it alone. -/
def setBranch (rev : String) : Cmd Unit := fun s => .ok () { s with branchPtr := rev }

/-! ## Machine integers -/

/-- Wrap an integer to the range of Go's `int64`. -/
def int64 (x : Int) : Int := (x + 2 ^ 63) % 2 ^ 64 - 2 ^ 63

/-- The constant `steps` of line 117. -/
def steps : Nat := 6

/-- The constant `max` of line 118: `2 * time.Second`, in nanoseconds. -/
def max : Int := 2 * 1000000000

/-- The argument of `time.Sleep` at line 120,
`max * (1 << uint(i+1)) / (1 << steps)`, in `int64` arithmetic with Go's
truncating division. -/
def sleepDuration (i : Nat) : Int :=
  Int.tdiv (int64 (max * int64 (2 ^ (i + 1)))) (2 ^ steps)

/-! ## The command -/

/-- Lines 46-64: the switch on the status of the change. -/
def checkStatus (g : GerritChange) : Cmd Unit :=
  if g.Status = "NEW" ∨ g.Status = "SUBMITTED" then pure ()
  else if g.Status = "MERGED" then
    dief "cannot submit: change already submitted, run 'git sync'" []
  else if g.Status = "ABANDONED" then
    dief "cannot submit: change abandoned" []
  else
    dief "cannot submit: unexpected Gerrit change status %q" [g.Status]

/-- Lines 68-79: the loop over the label names, from the names still to
visit.  A name without an entry in the map is skipped (for the names of
`LabelNames` there is always one). -/
def checkLabelsFrom (g : GerritChange) : List String → Cmd Unit
  | [] => pure ()
  | name :: rest =>
    match g.Labels.lookup name with
    | none => checkLabelsFrom g rest
    | some label =>
      if label.Optional then checkLabelsFrom g rest
      else if label.Rejected ≠ none then
        dief "cannot submit: change has %s rejection" [name]
      else if label.Approved = none then
        dief "cannot submit: change missing %s approval" [name]
      else checkLabelsFrom g rest

/-- Lines 66-79: check for label approvals. -/
def checkLabels (g : GerritChange) : Cmd Unit :=
  checkLabelsFrom g g.LabelNames

/-- Lines 25-31: the commit to submit. -/
def selectCommit (w : World) : Except String Commit :=
  if w.flagArgs.length = 1 then w.commitByHash (w.flagArgs.headD "")
  else w.defaultCommit

/-- Lines 15-44: the command line, the commit, the clean-workspace checks and
the first fetch of the change. -/
def fetchChange (w : World) : Cmd (Commit × GerritChange) := do
  if w.flagArgs.length > 1 then usageExit
  else
    match selectCommit w with
    | .error e => dief "%v" [e]
    | .ok c =>
      checkStaged w
      checkUnstaged w
      match (← gerritChange w c) with
      | .error e => dief "%v" [e]
      | .ok g => pure (c, g)

/-- Lines 15-79: up to and including the label check. -/
def approvalGate (w : World) : Cmd (Commit × GerritChange) := do
  let (c, g) ← fetchChange w
  checkStatus g
  checkLabels g
  pure (c, g)

/-- Lines 81-91: upload the commit if the server does not have it, then fetch
the change again. -/
def upload (w : World) (c : Commit) (g : GerritChange) : Cmd GerritChange := do
  if c.Hash ≠ g.CurrentRevision then
    run "git" ["push", "-q", "origin", w.pushSpec c] w.pushErr
    match (← gerritChange w c) with
    | .error e => dief "%v" [e]
    | .ok g1 => pure g1
  else pure g

/-- Lines 93-101: the mergeability check and the dry-run stop. -/
def checkMergeable (w : World) (g : GerritChange) : Cmd Unit :=
  if !g.Mergeable then
    dief "cannot submit: conflicting changes submitted, run 'git sync'" []
  else if w.noRun then
    dief "stopped before submit" []
  else pure ()

/-- Lines 103-109: the submit request. -/
def submit (w : World) (c : Commit) : Cmd Unit := do
  match (← gerritAPI ("/a/changes/" ++ w.fullChangeID c ++ "/submit")
      "\x7b\"wait_for_merge\": true\x7d" w.submitErr) with
  | some e => dief "cannot submit: %v" [e]
  | none => pure ()

/-- Lines 119-128: the polling loop, from iteration `i = steps - remaining`
on; `g` is the change as last fetched. -/
def pollLoop (w : World) (c : Commit) : Nat → GerritChange → Cmd GerritChange
  | 0, g => pure g
  | remaining + 1, _ => do
    sleep (sleepDuration (steps - (remaining + 1)))
    match (← gerritChange w c) with
    | .error e => dief "waiting for merge: %v" [e]
    | .ok g1 =>
      if g1.Status ≠ "SUBMITTED" then pure g1
      else pollLoop w c remaining g1

/-- Lines 130-140: the switch on the status after the loop. -/
def checkPostStatus (g : GerritChange) : Cmd Unit :=
  if g.Status = "MERGED" then pure ()
  else if g.Status = "SUBMITTED" then
    dief "cannot submit: timed out waiting for change to be submitted by Gerrit" []
  else
    dief "submit error: unexpected post-submit Gerrit change status %q" [g.Status]

/-- The format string of the `dief` call of lines 147-149. -/
def cannotSyncFormat : String :=
  "submit succeeded, but cannot sync local branch\n" ++
    "\trun 'git sync' to sync, or\n" ++
    "\trun 'git branch -D %s; git change master; git sync' to discard local branch"

/-- Lines 142-153: sync the client to the revision that Gerrit committed. -/
def reconcile (w : World) (g : GerritChange) : Cmd Unit := do
  run "git" ["fetch", "-q"] w.fetchErr
  if w.b.Pending.length = 1 then
    match (← runErr "git" ["checkout", "-q", "-B", w.b.Name, g.CurrentRevision, "--"]
        w.checkoutErr) with
    | some _ => dief cannotSyncFormat [w.b.Name]
    | none => setBranch g.CurrentRevision
  else
    printf "submit succeeded; run 'git sync' to sync" []

/-- Lines 117-153: the polling loop, the switch on the final status and the
sync of the client, for the change `g` as last fetched before the loop. -/
def mergeWait (w : World) (c : Commit) (g : GerritChange) : Cmd Unit := do
  let g ← pollLoop w c steps g
  checkPostStatus g
  reconcile w g

/-- Lines 93-153: everything from the mergeability check on. -/
def afterUpload (w : World) (c : Commit) (g : GerritChange) : Cmd Unit := do
  checkMergeable w g
  submit w c
  mergeWait w c g

/-- Lines 81-153: everything after the label check, for the selected commit
and the change as first fetched. -/
def submitChange (w : World) (c : Commit) (g : GerritChange) : Cmd Unit := do
  let g ← upload w c g
  afterUpload w c g

/-- The function `cmdSubmit`. -/
def cmdSubmit (w : World) : Cmd Unit := do
  let (c, g) ← approvalGate w
  submitChange w c g

/-- Lines 15-91 on their own: the run up to the mergeability check, with the
change that check will test. -/
def uploadStep (w : World) : Cmd (Commit × GerritChange) := do
  let (c, g) ← approvalGate w
  let g ← upload w c g
  pure (c, g)

/-- Lines 15-109 on their own: the run up to the polling loop. -/
def submitExecutor (w : World) : Cmd (Commit × GerritChange) := do
  let (c, g) ← uploadStep w
  checkMergeable w g
  submit w c
  pure (c, g)

/-- Lines 15-140 on their own: the run up to the sync of the client, with
the change of the last poll. -/
def confirmMerged (w : World) : Cmd (Commit × GerritChange) := do
  let (c, g) ← submitExecutor w
  let g1 ← pollLoop w c steps g
  checkPostStatus g1
  pure (c, g1)

/-- A run of `cmdSubmit` from the initial state. -/
def runSubmit (w : World) : Res Unit := cmdSubmit w (St.init w)

/-- The trace of the first part of a run, up to the first fetch. -/
def fetchCalls (c : Commit) : List Call :=
  [.checkStaged, .checkUnstaged, .gerritChange c ["LABELS", "CURRENT_REVISION"]]

/-- The `git push` call of line 84. -/
def pushCall (w : World) (c : Commit) : Call :=
  .exec "git" ["push", "-q", "origin", w.pushSpec c]

/-- The fetch of the change, as a call. -/
def changeCall (c : Commit) : Call :=
  .gerritChange c ["LABELS", "CURRENT_REVISION"]

/-- The submit request of line 107, as a call. -/
def submitCall (w : World) (c : Commit) : Call :=
  .gerritAPI ("/a/changes/" ++ w.fullChangeID c ++ "/submit") "\x7b\"wait_for_merge\": true\x7d"

/-- The calls of `n` iterations of the polling loop, from iteration `i` on:
a sleep and a fetch each. -/
def pollCalls (c : Commit) : Nat → Nat → List Call
  | _, 0 => []
  | i, n + 1 => .sleep (sleepDuration i) :: changeCall c :: pollCalls c (i + 1) n

/-- A step adds only calls that satisfy `P` to the trace, and removes none. -/
def Adds {α : Type} (P : Call → Prop) (m : Cmd α) : Prop :=
  ∀ s, ∃ ext, (m s).st.trace = s.trace ++ ext ∧ ∀ k ∈ ext, P k

/-- A step leaves the branch pointer as it found it. -/
def KeepsBranch {α : Type} (m : Cmd α) : Prop :=
  ∀ s, (m s).st.branchPtr = s.branchPtr

/-- The format strings of the fatal errors raised before the sync of the
client: unexpected status, already submitted, abandoned, rejection, missing
approval, not mergeable, submit rejected, poll error, timeout, unexpected
post-submit status. -/
def earlyFormats : List String :=
  ["cannot submit: unexpected Gerrit change status %q",
    "cannot submit: change already submitted, run 'git sync'",
    "cannot submit: change abandoned",
    "cannot submit: change has %s rejection",
    "cannot submit: change missing %s approval",
    "cannot submit: conflicting changes submitted, run 'git sync'",
    "cannot submit: %v",
    "waiting for merge: %v",
    "cannot submit: timed out waiting for change to be submitted by Gerrit",
    "submit error: unexpected post-submit Gerrit change status %q"]

/-! ## Example worlds -/

/-- Answers of the server read from a list; past its end the fetch fails. -/
def scripted (answers : List (Except String GerritChange)) (n : Nat) :
    Except String GerritChange :=
  answers.getD n (.error "no more answers")

/-- An example commit. -/
def commitX : Commit := ⟨"abc123", "I0123"⟩

/-- An approved, not rejected, required label. -/
def labelOK : GerritLabel := ⟨false, some ⟨"gopher"⟩, none⟩

/-- An example change with the given status, mergeable, at the revision of
`commitX`, with one approved label. -/
def changeX (status : String) : GerritChange :=
  ⟨status, "abc123", true, [("Code-Review", labelOK)]⟩

/-- An example world: clean workspace, one pending commit, the server has the
commit and answers with the given changes. -/
def worldX (answers : List (Except String GerritChange)) : World where
  flagArgs := []
  noRun := false
  b := ⟨"work", [commitX]⟩
  head := "abc123"
  commitByHash := fun _ => .error "no such commit"
  defaultCommit := .ok commitX
  staged := none
  unstaged := none
  gerritChange := scripted answers
  pushSpec := fun _ => "HEAD:refs/for/master"
  fullChangeID := fun c => c.ChangeID
  pushErr := none
  submitErr := none
  fetchErr := none
  checkoutErr := none

/-- An example change: label `A` is required, approved and rejected; label
`B` is required, with neither indicator. -/
def changeRejectedFirst : GerritChange :=
  ⟨"NEW", "abc123", true,
    [("A", ⟨false, some ⟨"gopher"⟩, some ⟨"rsc"⟩⟩), ("B", ⟨false, none, none⟩)]⟩

/-- An example change: label `A` is required, with neither indicator; label
`B` is required, approved and rejected. -/
def changeMissingFirst : GerritChange :=
  ⟨"NEW", "abc123", true,
    [("A", ⟨false, none, none⟩), ("B", ⟨false, some ⟨"gopher"⟩, some ⟨"rsc"⟩⟩)]⟩

/-- The state of a run of an example world after the first fetch. -/
def stateX : St := ⟨fetchCalls commitX, 1, "abc123"⟩

/-- The state of a run of an example world after a push and the second
fetch. -/
def stateXPushed : St :=
  ⟨fetchCalls commitX ++ [.exec "git" ["push", "-q", "origin", "HEAD:refs/for/master"],
    changeCall commitX], 2, "abc123"⟩

/-- An example change the server holds at an older revision than `commitX`. -/
def changeOld : GerritChange :=
  ⟨"NEW", "0ld", true, [("Code-Review", labelOK)]⟩

/-- An example change at the revision of `commitX` that cannot be merged. -/
def changeConflict : GerritChange :=
  ⟨"NEW", "abc123", false, [("Code-Review", labelOK)]⟩

/-- A change in the given status at the revision the server merged. -/
def changeAt (status : String) : GerritChange :=
  ⟨status, "def456", true, [("Code-Review", labelOK)]⟩

/-- The answers NEW, SUBMITTED, SUBMITTED, MERGED. -/
def answersMerged : List (Except String GerritChange) :=
  [.ok (changeX "NEW"), .ok (changeAt "SUBMITTED"), .ok (changeAt "SUBMITTED"),
    .ok (changeAt "MERGED")]

/-- The answers NEW, six times SUBMITTED, then MERGED. -/
def answersPending : List (Except String GerritChange) :=
  [.ok (changeX "NEW"), .ok (changeAt "SUBMITTED"), .ok (changeAt "SUBMITTED"),
    .ok (changeAt "SUBMITTED"), .ok (changeAt "SUBMITTED"), .ok (changeAt "SUBMITTED"),
    .ok (changeAt "SUBMITTED"), .ok (changeAt "MERGED")]

/-- The state of a run of an example world after the submit request. -/
def stateXSubmitted : St :=
  ⟨fetchCalls commitX ++ [.gerritAPI "/a/changes/I0123/submit" "\x7b\"wait_for_merge\": true\x7d"],
    1, "abc123"⟩

/-- The example world with a `git checkout` that fails. -/
def worldCheckoutFails : World :=
  { worldX [.ok (changeX "NEW"), .ok (changeAt "MERGED")] with
    checkoutErr := some "error: checkout failed" }

/-- The two git calls of the sync of the client. -/
def syncCalls (w : World) (g : GerritChange) : List Call :=
  [.exec "git" ["fetch", "-q"],
    .exec "git" ["checkout", "-q", "-B", w.b.Name, g.CurrentRevision, "--"]]

/-- A change in a status the command does not know. -/
def changeDraft : GerritChange :=
  ⟨"DRAFT", "abc123", true, [("Code-Review", labelOK)]⟩

/-- The answers NEW, SUBMITTED, then a transport error, then MERGED. -/
def answersBroken : List (Except String GerritChange) :=
  [.ok (changeX "NEW"), .ok (changeAt "SUBMITTED"), .error "connection reset",
    .ok (changeAt "MERGED")]

/-- The example world with a submit request that the server refuses. -/
def worldSubmitRefused : World :=
  { worldX [.ok (changeX "NEW"), .ok (changeAt "MERGED")] with
    submitErr := some "409 Conflict" }

/-- The example world in a dry run (`-n`). -/
def worldDryRun : World :=
  { worldX [.ok (changeX "NEW"), .ok (changeAt "MERGED")] with noRun := true }

/-- The git fetch and the deferral message of a sync that is left to the
user. -/
def deferCalls : List Call :=
  [.exec "git" ["fetch", "-q"], .printf ⟨"submit succeeded; run 'git sync' to sync", []⟩]

/-- The example world with a second pending commit on the branch; the
commit to submit is named by its hash on the command line. -/
def worldTwoPending : World :=
  { worldX [.ok (changeX "NEW"), .ok (changeAt "MERGED")] with
    flagArgs := ["abc123"]
    commitByHash := fun h => if h = "abc123" then .ok commitX else .error "no such commit"
    defaultCommit := .error "multiple changes pending"
    b := ⟨"work", [commitX, ⟨"fedcba", "I4567"⟩]⟩ }

/-- The world `worldTwoPending` with a `git fetch` that fails. -/
def worldTwoPendingFetchFails : World :=
  { worldTwoPending with fetchErr := some "fatal: unable to access remote" }

/-- The example world whose server holds an older revision, with a
`git push` that fails. -/
def worldPushFails : World :=
  { worldX [.ok changeOld, .ok changeConflict] with pushErr := some "remote rejected" }

/-- An example change in status SUBMITTED that the server holds at an older
revision than `commitX`. -/
def changeQueuedOld : GerritChange :=
  ⟨"SUBMITTED", "0ld", true, [("Code-Review", labelOK)]⟩

/-- The answers: SUBMITTED at an older revision, SUBMITTED at the revision of
`commitX` after the push, then MERGED. -/
def answersQueued : List (Except String GerritChange) :=
  [.ok changeQueuedOld, .ok (changeX "SUBMITTED"), .ok (changeAt "MERGED")]

/-! ## Unfolding lemmas -/

@[simp] theorem bind_apply {α β : Type} (m : Cmd α) (f : α → Cmd β) (s : St) :
    (m >>= f) s = Cmd.bind m f s := rfl

@[simp] theorem pure_apply {α : Type} (a : α) (s : St) :
    (pure a : Cmd α) s = .ok a s := rfl

theorem fetchChange_ok (w : World) (c : Commit) (g : GerritChange) (s : St)
    (hargs : w.flagArgs.length ≤ 1) (hc : selectCommit w = .ok c)
    (hst : w.staged = none) (hun : w.unstaged = none)
    (hg : w.gerritChange s.fetched = .ok g) :
    fetchChange w s
      = .ok (c, g) ⟨s.trace ++ fetchCalls c, s.fetched + 1, s.branchPtr⟩ := by
  have hn : ¬ w.flagArgs.length > 1 := by omega
  simp [fetchChange, hn, hc, Cmd.bind, checkStaged, checkUnstaged, call, hst, hun,
    gerritChange, hg, Cmd.pure, fetchCalls]

theorem bind_ok_inv {α β : Type} {m : Cmd α} {f : α → Cmd β} {s s2 : St} {b : β}
    (h : Cmd.bind m f s = .ok b s2) : ∃ a s1, m s = .ok a s1 ∧ f a s1 = .ok b s2 := by
  unfold Cmd.bind at h
  split at h
  · exact ⟨_, _, by assumption, h⟩
  · cases h
  · cases h

theorem fetchChange_inv {w : World} {c : Commit} {g : GerritChange} {s s1 : St}
    (h : fetchChange w s = .ok (c, g) s1) :
    s1 = ⟨s.trace ++ fetchCalls c, s.fetched + 1, s.branchPtr⟩
      ∧ w.gerritChange s.fetched = .ok g := by
  by_cases hn : w.flagArgs.length > 1
  · simp [fetchChange, hn, usageExit] at h
  · cases hsel : selectCommit w <;> cases hs : w.staged <;> cases hu : w.unstaged <;>
      cases hg : w.gerritChange s.fetched <;>
      simp [fetchChange, hn, hsel, Cmd.bind, checkStaged, checkUnstaged, call, hs, hu,
        gerritChange, hg, dief, Cmd.pure] at h
    obtain ⟨⟨rfl, rfl⟩, rfl⟩ := h
    simp [fetchCalls]

theorem checkStatus_inv {g : GerritChange} {s s1 : St} (h : checkStatus g s = .ok () s1) :
    s1 = s ∧ (g.Status = "NEW" ∨ g.Status = "SUBMITTED") := by
  unfold checkStatus at h
  split at h
  · rename_i hs
    simp [Cmd.pure] at h
    exact ⟨h.symm, hs⟩
  · split at h
    · cases h
    · split at h <;> cases h

theorem checkStatus_ok {g : GerritChange} (s : St)
    (h : g.Status = "NEW" ∨ g.Status = "SUBMITTED") : checkStatus g s = .ok () s := by
  simp [checkStatus, h, Cmd.pure]

/-! ## Status triage -/

/-- C1: on a clean workspace, when the first fetched change has status MERGED
the run dies with the already-submitted message, and its trace (the two
workspace checks and the one fetch) has no git push, no submit request and no
checkout, whatever the labels, revision and mergeable flag of the change. -/
theorem merged_fails_before_push (w : World) (c : Commit) (g : GerritChange)
    (hargs : w.flagArgs.length ≤ 1) (hc : selectCommit w = .ok c)
    (hst : w.staged = none) (hun : w.unstaged = none)
    (hg : w.gerritChange 0 = .ok g) (hm : g.Status = "MERGED") :
    runSubmit w
        = .died ⟨"cannot submit: change already submitted, run 'git sync'", []⟩
            ⟨fetchCalls c, 1, w.head⟩
      ∧ ∀ k ∈ (runSubmit w).st.trace,
          k.isPush = false ∧ k.isSubmit = false ∧ k.isCheckout = false := by
  have h := fetchChange_ok w c g (St.init w) hargs hc hst hun hg
  simp only [St.init, List.nil_append, Nat.zero_add] at h
  have hrun : runSubmit w
        = .died ⟨"cannot submit: change already submitted, run 'git sync'", []⟩
            ⟨fetchCalls c, 1, w.head⟩ := by
    simp [runSubmit, cmdSubmit, approvalGate, Cmd.bind, h, checkStatus, hm, dief, St.init]
  refine ⟨hrun, ?_⟩
  rw [hrun]
  intro k hk
  simp [Res.st, fetchCalls] at hk
  rcases hk with rfl | rfl | rfl <;> simp [Call.isPush, Call.isSubmit, Call.isCheckout]

/-- C1 at a concrete world: the first fetch answers MERGED, not mergeable,
with a rejected label and another revision. -/
theorem merged_fails_before_push_witness :
    runSubmit (worldX [.ok ⟨"MERGED", "fff", false, [("Code-Review", ⟨false, none, some ⟨"x"⟩⟩)]⟩])
        = .died ⟨"cannot submit: change already submitted, run 'git sync'", []⟩
            ⟨fetchCalls commitX, 1, "abc123"⟩
      ∧ ∀ k ∈ (runSubmit (worldX [.ok ⟨"MERGED", "fff", false,
            [("Code-Review", ⟨false, none, some ⟨"x"⟩⟩)]⟩])).st.trace,
          k.isPush = false ∧ k.isSubmit = false ∧ k.isCheckout = false :=
  merged_fails_before_push _ commitX _ (by decide) rfl rfl rfl rfl rfl

/-! ## The label check -/

theorem lookup_mem_keys {l : List (String × GerritLabel)} {name : String}
    {label : GerritLabel} (h : l.lookup name = some label) : name ∈ l.map Prod.fst := by
  induction l with
  | nil => simp [List.lookup] at h
  | cons p rest ih =>
    obtain ⟨k, v⟩ := p
    by_cases hk : name = k
    · simp [hk]
    · have hne : (name == k) = false := by simpa using hk
      simp only [List.lookup, hne] at h
      simp [ih h]

theorem lookup_mem_names {g : GerritChange} {name : String} {label : GerritLabel}
    (h : g.Labels.lookup name = some label) : name ∈ g.LabelNames :=
  lookup_mem_keys h

theorem lookup_of_mem_keys {l : List (String × GerritLabel)} {name : String}
    (h : name ∈ l.map Prod.fst) : ∃ label, l.lookup name = some label := by
  induction l with
  | nil => simp at h
  | cons p rest ih =>
    obtain ⟨k, v⟩ := p
    by_cases hk : name = k
    · exact ⟨v, by simp [List.lookup, hk]⟩
    · have hne : (name == k) = false := by simpa using hk
      have hm : name ∈ rest.map Prod.fst := by simpa [hk] using h
      simpa only [List.lookup, hne] using ih hm

/-- Every name of `LabelNames` has an entry in the map: the loop of lines
68-79 never meets a name without a label. -/
theorem lookup_of_mem_names {g : GerritChange} {name : String}
    (h : name ∈ g.LabelNames) : ∃ label, g.Labels.lookup name = some label :=
  lookup_of_mem_keys h

theorem checkLabelsFrom_skip (g : GerritChange) (n : String) (rest : List String) (s : St)
    (h : ∀ label, g.Labels.lookup n = some label →
      label.Optional = true ∨ (label.Approved ≠ none ∧ label.Rejected = none)) :
    checkLabelsFrom g (n :: rest) s = checkLabelsFrom g rest s := by
  cases hl : g.Labels.lookup n with
  | none => simp only [checkLabelsFrom, hl]
  | some label =>
    rcases h label hl with ho | ⟨ha, hr⟩
    · simp only [checkLabelsFrom, hl, ho, if_true]
    · by_cases ho : label.Optional = true
      · simp only [checkLabelsFrom, hl, ho, if_true]
      · have ho2 : label.Optional = false := by simpa using ho
        simp only [checkLabelsFrom, hl, ho2, hr, ha, ne_eq, not_true_eq_false, if_false]
        simp

theorem checkLabelsFrom_rejected (g : GerritChange) (n : String) (rest : List String)
    (s : St) (label : GerritLabel) (hl : g.Labels.lookup n = some label)
    (ho : label.Optional = false) (hr : label.Rejected ≠ none) :
    checkLabelsFrom g (n :: rest) s
      = .died ⟨"cannot submit: change has %s rejection", [n]⟩ s := by
  simp only [checkLabelsFrom, hl, ho, hr, ne_eq, not_false_eq_true, if_true]
  rfl

theorem checkLabelsFrom_missing (g : GerritChange) (n : String) (rest : List String)
    (s : St) (label : GerritLabel) (hl : g.Labels.lookup n = some label)
    (ho : label.Optional = false) (hr : label.Rejected = none)
    (ha : label.Approved = none) :
    checkLabelsFrom g (n :: rest) s
      = .died ⟨"cannot submit: change missing %s approval", [n]⟩ s := by
  simp only [checkLabelsFrom, hl, ho, hr, ha, ne_eq, not_true_eq_false, if_false, if_true]
  rfl

/-- What the check does at the name `n`: skip it, or die with one of the two
label messages. -/
theorem checkLabelsFrom_step (g : GerritChange) (n : String) (rest : List String) (s : St) :
    ((∀ label, g.Labels.lookup n = some label →
          label.Optional = true ∨ (label.Approved ≠ none ∧ label.Rejected = none))
        ∧ checkLabelsFrom g (n :: rest) s = checkLabelsFrom g rest s)
      ∨ (∃ label, g.Labels.lookup n = some label ∧ label.Optional = false ∧
          ¬ (label.Approved ≠ none ∧ label.Rejected = none) ∧
          (checkLabelsFrom g (n :: rest) s
              = .died ⟨"cannot submit: change has %s rejection", [n]⟩ s ∨
            checkLabelsFrom g (n :: rest) s
              = .died ⟨"cannot submit: change missing %s approval", [n]⟩ s)) := by
  by_cases h : ∀ label, g.Labels.lookup n = some label →
      label.Optional = true ∨ (label.Approved ≠ none ∧ label.Rejected = none)
  · exact Or.inl ⟨h, checkLabelsFrom_skip g n rest s h⟩
  · right
    push_neg at h
    obtain ⟨label, hl, ho, hbad⟩ := h
    have ho2 : label.Optional = false := by simpa using ho
    by_cases hr : label.Rejected = none
    · have ha : label.Approved = none := by
        by_contra hne
        exact hbad hne hr
      exact ⟨label, hl, ho2, fun hh => hh.1 ha,
        Or.inr (checkLabelsFrom_missing g n rest s label hl ho2 hr ha)⟩
    · exact ⟨label, hl, ho2, fun hh => hr hh.2,
        Or.inl (checkLabelsFrom_rejected g n rest s label hl ho2 hr)⟩

theorem checkLabelsFrom_cases (g : GerritChange) (names : List String) (s : St) :
    checkLabelsFrom g names s = .ok () s ∨
      ∃ name ∈ names,
        checkLabelsFrom g names s
            = .died ⟨"cannot submit: change has %s rejection", [name]⟩ s ∨
          checkLabelsFrom g names s
            = .died ⟨"cannot submit: change missing %s approval", [name]⟩ s := by
  induction names with
  | nil => left; rfl
  | cons n rest ih =>
    rcases checkLabelsFrom_step g n rest s with ⟨_, e⟩ | ⟨_, _, _, _, hd⟩
    · rw [e]
      rcases ih with h | ⟨name, hm, h⟩
      · exact Or.inl h
      · exact Or.inr ⟨name, List.mem_cons_of_mem _ hm, h⟩
    · exact Or.inr ⟨n, List.mem_cons_self _ _, hd⟩

theorem checkLabelsFrom_ok_iff (g : GerritChange) (names : List String) (s s1 : St) :
    checkLabelsFrom g names s = .ok () s1 ↔
      s1 = s ∧ ∀ name ∈ names, ∀ label, g.Labels.lookup name = some label →
        label.Optional = false → label.Approved ≠ none ∧ label.Rejected = none := by
  induction names with
  | nil =>
    constructor
    · intro h
      cases h
      exact ⟨rfl, fun _ hm => absurd hm (List.not_mem_nil _)⟩
    · rintro ⟨rfl, _⟩
      rfl
  | cons n rest ih =>
    rcases checkLabelsFrom_step g n rest s with ⟨hn, e⟩ | ⟨label, hl, ho, hbad, hd⟩
    · rw [e, ih]
      constructor
      · rintro ⟨h1, h2⟩
        refine ⟨h1, ?_⟩
        intro name hm label hl ho
        rcases List.mem_cons.1 hm with rfl | hm
        · rcases hn label hl with ho2 | hgood
          · rw [ho] at ho2; cases ho2
          · exact hgood
        · exact h2 name hm label hl ho
      · rintro ⟨h1, h2⟩
        exact ⟨h1, fun name hm => h2 name (List.mem_cons_of_mem _ hm)⟩
    · constructor
      · intro h
        rcases hd with hd | hd <;> rw [hd] at h <;> cases h
      · rintro ⟨_, h2⟩
        exact absurd (h2 n (List.mem_cons_self _ _) label hl ho) hbad

theorem checkLabels_ok_iff (g : GerritChange) (s s1 : St) :
    checkLabels g s = .ok () s1 ↔
      s1 = s ∧ ∀ name label, g.Labels.lookup name = some label →
        label.Optional = false → label.Approved ≠ none ∧ label.Rejected = none := by
  unfold checkLabels
  rw [checkLabelsFrom_ok_iff]
  constructor
  · rintro ⟨h1, h2⟩
    exact ⟨h1, fun name label hl => h2 name (lookup_mem_names hl) label hl⟩
  · rintro ⟨h1, h2⟩
    exact ⟨h1, fun name _ label hl => h2 name label hl⟩

theorem approvalGate_of_fetch {w : World} {c : Commit} {g : GerritChange} {s s1 : St}
    (h : fetchChange w s = .ok (c, g) s1)
    (hs : g.Status = "NEW" ∨ g.Status = "SUBMITTED") :
    approvalGate w s = Cmd.bind (checkLabels g) (fun _ => Cmd.pure (c, g)) s1 := by
  simp only [approvalGate, bind_apply, Cmd.bind, h, checkStatus_ok s1 hs]
  rfl

theorem cmdSubmit_of_approvalGate {w : World} {c : Commit} {g : GerritChange} {s s1 : St}
    (h : approvalGate w s = .ok (c, g) s1) : cmdSubmit w s = submitChange w c g s1 := by
  simp only [cmdSubmit, bind_apply, Cmd.bind, h]

/-- C2: when the first fetched change has status NEW or SUBMITTED, the run
passes the label check and goes on to the upload step exactly when every label
of the change that is not optional has an approved indicator and no rejected
indicator (optional labels are not looked at); otherwise the run dies there
with a rejection or a missing-approval message for one of the label names. -/
theorem label_check_passes_iff (w : World) (c : Commit) (g : GerritChange) (s1 : St)
    (h : fetchChange w (St.init w) = .ok (c, g) s1)
    (hs : g.Status = "NEW" ∨ g.Status = "SUBMITTED") :
    ((approvalGate w (St.init w) = .ok (c, g) s1 ∧ runSubmit w = submitChange w c g s1) ↔
        ∀ name label, g.Labels.lookup name = some label →
          label.Optional = false → label.Approved ≠ none ∧ label.Rejected = none)
      ∧ (approvalGate w (St.init w) = .ok (c, g) s1 ∨
          ∃ name ∈ g.LabelNames,
            runSubmit w = .died ⟨"cannot submit: change has %s rejection", [name]⟩ s1 ∨
            runSubmit w = .died ⟨"cannot submit: change missing %s approval", [name]⟩ s1) := by
  have hgate := approvalGate_of_fetch h hs
  constructor
  · constructor
    · rintro ⟨hok, _⟩
      rw [hgate] at hok
      obtain ⟨_, s2, hl, _⟩ := bind_ok_inv hok
      exact ((checkLabels_ok_iff g s1 s2).1 hl).2
    · intro hp
      have hl : checkLabels g s1 = .ok () s1 := (checkLabels_ok_iff g s1 s1).2 ⟨rfl, hp⟩
      have hok : approvalGate w (St.init w) = .ok (c, g) s1 := by
        rw [hgate]; simp [Cmd.bind, hl, Cmd.pure]
      exact ⟨hok, cmdSubmit_of_approvalGate hok⟩
  · rcases checkLabelsFrom_cases g g.LabelNames s1 with hl | ⟨name, hm, hl⟩
    · left
      rw [hgate]
      have hl2 : checkLabels g s1 = .ok () s1 := hl
      simp [Cmd.bind, hl2, Cmd.pure]
    · right
      refine ⟨name, hm, ?_⟩
      have hrun : ∀ m, checkLabels g s1 = .died m s1 → runSubmit w = .died m s1 := by
        intro m hd
        simp only [runSubmit, cmdSubmit, bind_apply, Cmd.bind, hgate, hd]
      rcases hl with hl | hl
      · exact Or.inl (hrun _ hl)
      · exact Or.inr (hrun _ hl)

/-- C2 at a concrete world: status NEW, one required label, approved and not
rejected. -/
theorem label_check_passes_iff_witness :
    (fetchChange (worldX [.ok (changeX "NEW")]) (St.init (worldX [.ok (changeX "NEW")]))
        = .ok (commitX, changeX "NEW") stateX
      ∧ ((changeX "NEW").Status = "NEW" ∨ (changeX "NEW").Status = "SUBMITTED"))
    ∧ (((approvalGate (worldX [.ok (changeX "NEW")]) (St.init (worldX [.ok (changeX "NEW")]))
            = .ok (commitX, changeX "NEW") stateX
          ∧ runSubmit (worldX [.ok (changeX "NEW")])
            = submitChange (worldX [.ok (changeX "NEW")]) commitX (changeX "NEW") stateX) ↔
        ∀ name label, (changeX "NEW").Labels.lookup name = some label →
          label.Optional = false → label.Approved ≠ none ∧ label.Rejected = none)
      ∧ (approvalGate (worldX [.ok (changeX "NEW")]) (St.init (worldX [.ok (changeX "NEW")]))
            = .ok (commitX, changeX "NEW") stateX ∨
          ∃ name ∈ (changeX "NEW").LabelNames,
            runSubmit (worldX [.ok (changeX "NEW")])
              = .died ⟨"cannot submit: change has %s rejection", [name]⟩ stateX ∨
            runSubmit (worldX [.ok (changeX "NEW")])
              = .died ⟨"cannot submit: change missing %s approval", [name]⟩ stateX)) :=
  ⟨⟨rfl, Or.inl rfl⟩,
    label_check_passes_iff (worldX [.ok (changeX "NEW")]) commitX (changeX "NEW") stateX rfl
      (Or.inl rfl)⟩

theorem checkLabelsFrom_append (g : GerritChange) (pre rest : List String) (s : St)
    (h : ∀ n ∈ pre, ∀ label, g.Labels.lookup n = some label →
      label.Optional = true ∨ (label.Approved ≠ none ∧ label.Rejected = none)) :
    checkLabelsFrom g (pre ++ rest) s = checkLabelsFrom g rest s := by
  induction pre with
  | nil => rfl
  | cons n pre ih =>
    rw [List.cons_append, checkLabelsFrom_skip g n (pre ++ rest) s (h n (List.mem_cons_self _ _))]
    exact ih (fun m hm => h m (List.mem_cons_of_mem _ hm))

/-- The label check passes, or it dies at the first name in the order of
visit whose label fails it (required, and rejected or not approved): every
name before passes, and the message is the rejection one when that label is
rejected and the missing-approval one otherwise. -/
theorem checkLabelsFrom_first_failing (g : GerritChange) (names : List String) (s : St) :
    checkLabelsFrom g names s = .ok () s ∨
      ∃ pre name post lab, names = pre ++ name :: post ∧
        (∀ n ∈ pre, ∀ l, g.Labels.lookup n = some l →
          l.Optional = true ∨ (l.Approved ≠ none ∧ l.Rejected = none)) ∧
        g.Labels.lookup name = some lab ∧ lab.Optional = false ∧
        ((lab.Rejected ≠ none ∧ checkLabelsFrom g names s
            = .died ⟨"cannot submit: change has %s rejection", [name]⟩ s) ∨
          (lab.Rejected = none ∧ lab.Approved = none ∧ checkLabelsFrom g names s
            = .died ⟨"cannot submit: change missing %s approval", [name]⟩ s)) := by
  induction names with
  | nil => left; rfl
  | cons n rest ih =>
    by_cases hn : ∀ label, g.Labels.lookup n = some label →
        label.Optional = true ∨ (label.Approved ≠ none ∧ label.Rejected = none)
    · rw [checkLabelsFrom_skip g n rest s hn]
      rcases ih with hok | ⟨pre, name, post, lab, hnames, hpre, hl, ho, hcase⟩
      · exact Or.inl hok
      · right
        refine ⟨n :: pre, name, post, lab, by rw [hnames, List.cons_append], ?_, hl, ho, hcase⟩
        intro m hm
        rcases List.mem_cons.1 hm with rfl | hm
        · exact hn
        · exact hpre m hm
    · right
      push_neg at hn
      obtain ⟨lab, hl, ho, hbad⟩ := hn
      have ho2 : lab.Optional = false := by simpa using ho
      refine ⟨[], n, rest, lab, rfl, fun _ hm => absurd hm (List.not_mem_nil _), hl, ho2, ?_⟩
      by_cases hr : lab.Rejected = none
      · have ha : lab.Approved = none := by
          by_contra hne
          exact hbad hne hr
        exact Or.inr ⟨hr, ha, checkLabelsFrom_missing g n rest s lab hl ho2 hr ha⟩
      · exact Or.inl ⟨hr, checkLabelsFrom_rejected g n rest s lab hl ho2 hr⟩

theorem runSubmit_label_died {w : World} {c : Commit} {g : GerritChange} {s1 : St} {m : Msg}
    (h : fetchChange w (St.init w) = .ok (c, g) s1)
    (hs : g.Status = "NEW" ∨ g.Status = "SUBMITTED")
    (hd : checkLabelsFrom g g.LabelNames s1 = .died m s1) :
    runSubmit w = .died m s1 := by
  have hd2 : checkLabels g s1 = .died m s1 := hd
  simp only [runSubmit, cmdSubmit, bind_apply, Cmd.bind, approvalGate_of_fetch h hs, hd2]

/-- C3, as the code has it: a required label `L` without an approved indicator
makes the run die at the label check, with the message of the first name in
the order of visit whose label fails the check (every name before it is
optional or approved and not rejected): the rejection message naming it when
that label is rejected, the missing-approval message naming it otherwise;
the message is the missing-approval one naming `L` when `L` has no rejected
indicator and every name visited before `L` is optional or approved and not
rejected. -/
theorem missing_approval_first_failing (w : World) (c : Commit) (g : GerritChange)
    (s1 : St) (L : String) (label : GerritLabel)
    (h : fetchChange w (St.init w) = .ok (c, g) s1)
    (hs : g.Status = "NEW" ∨ g.Status = "SUBMITTED")
    (hl : g.Labels.lookup L = some label) (ho : label.Optional = false)
    (ha : label.Approved = none) :
    (∃ pre name post lab, g.LabelNames = pre ++ name :: post ∧
        (∀ n ∈ pre, ∀ l, g.Labels.lookup n = some l →
          l.Optional = true ∨ (l.Approved ≠ none ∧ l.Rejected = none)) ∧
        g.Labels.lookup name = some lab ∧ lab.Optional = false ∧
        ((lab.Rejected ≠ none ∧ runSubmit w
            = .died ⟨"cannot submit: change has %s rejection", [name]⟩ s1) ∨
          (lab.Rejected = none ∧ lab.Approved = none ∧ runSubmit w
            = .died ⟨"cannot submit: change missing %s approval", [name]⟩ s1)))
      ∧ ∀ pre post, g.LabelNames = pre ++ L :: post → label.Rejected = none →
          (∀ n ∈ pre, ∀ l, g.Labels.lookup n = some l →
            l.Optional = true ∨ (l.Approved ≠ none ∧ l.Rejected = none)) →
          runSubmit w = .died ⟨"cannot submit: change missing %s approval", [L]⟩ s1 := by
  constructor
  · rcases checkLabelsFrom_first_failing g g.LabelNames s1 with hok |
        ⟨pre, name, post, lab, hnames, hpre, hlk, hopt, hcase⟩
    · have hp := ((checkLabelsFrom_ok_iff g g.LabelNames s1 s1).1 hok).2 L
        (lookup_mem_names hl) label hl ho
      exact absurd ha hp.1
    · refine ⟨pre, name, post, lab, hnames, hpre, hlk, hopt, ?_⟩
      rcases hcase with ⟨hr, hd⟩ | ⟨hr, hap, hd⟩
      · exact Or.inl ⟨hr, runSubmit_label_died h hs hd⟩
      · exact Or.inr ⟨hr, hap, runSubmit_label_died h hs hd⟩
  · intro pre post hnames hr hpre
    apply runSubmit_label_died h hs
    rw [hnames, checkLabelsFrom_append g pre (L :: post) s1 hpre]
    exact checkLabelsFrom_missing g L post s1 label hl ho hr ha

/-- C3 as stated fails: label `B` is required and has no approval, yet the run
dies with the rejection message naming label `A`, not with the
missing-approval message naming `B`. -/
theorem missing_approval_other_label_reported :
    fetchChange (worldX [.ok changeRejectedFirst]) (St.init (worldX [.ok changeRejectedFirst]))
        = .ok (commitX, changeRejectedFirst) stateX
      ∧ changeRejectedFirst.Status = "NEW"
      ∧ changeRejectedFirst.Labels.lookup "B" = some ⟨false, none, none⟩
      ∧ runSubmit (worldX [.ok changeRejectedFirst])
          = .died ⟨"cannot submit: change has %s rejection", ["A"]⟩ stateX
      ∧ ¬ ∃ s, runSubmit (worldX [.ok changeRejectedFirst])
          = .died ⟨"cannot submit: change missing %s approval", ["B"]⟩ s := by
  have hrun : runSubmit (worldX [.ok changeRejectedFirst])
      = .died ⟨"cannot submit: change has %s rejection", ["A"]⟩ stateX := rfl
  refine ⟨rfl, rfl, rfl, hrun, ?_⟩
  rintro ⟨s, hs⟩
  rw [hrun] at hs
  simp at hs

/-- C3 as amended, at a concrete world: `A` is required and has neither
indicator, and is the first name visited. -/
theorem missing_approval_first_failing_witness :
    (fetchChange (worldX [.ok changeMissingFirst]) (St.init (worldX [.ok changeMissingFirst]))
        = .ok (commitX, changeMissingFirst) stateX
      ∧ changeMissingFirst.Labels.lookup "A" = some ⟨false, none, none⟩)
    ∧ runSubmit (worldX [.ok changeMissingFirst])
        = .died ⟨"cannot submit: change missing %s approval", ["A"]⟩ stateX :=
  ⟨⟨rfl, rfl⟩,
    (missing_approval_first_failing (worldX [.ok changeMissingFirst]) commitX
      changeMissingFirst stateX "A" ⟨false, none, none⟩ rfl (Or.inl rfl) rfl rfl rfl).2
      [] ["B"] rfl rfl (fun _ hn => absurd hn (List.not_mem_nil _))⟩

/-- C4, as the code has it: a required label `L` with a rejected indicator
makes the run die at the label check, with the message of the first name in
the order of visit whose label fails the check (every name before it is
optional or approved and not rejected): the rejection message naming it when
that label is rejected, the missing-approval message naming it otherwise;
the message is the rejection one naming `L`, also when `L` has an approved
indicator, when every name visited before `L` is optional or approved and
not rejected. -/
theorem rejection_first_failing (w : World) (c : Commit) (g : GerritChange)
    (s1 : St) (L : String) (label : GerritLabel)
    (h : fetchChange w (St.init w) = .ok (c, g) s1)
    (hs : g.Status = "NEW" ∨ g.Status = "SUBMITTED")
    (hl : g.Labels.lookup L = some label) (ho : label.Optional = false)
    (hr : label.Rejected ≠ none) :
    (∃ pre name post lab, g.LabelNames = pre ++ name :: post ∧
        (∀ n ∈ pre, ∀ l, g.Labels.lookup n = some l →
          l.Optional = true ∨ (l.Approved ≠ none ∧ l.Rejected = none)) ∧
        g.Labels.lookup name = some lab ∧ lab.Optional = false ∧
        ((lab.Rejected ≠ none ∧ runSubmit w
            = .died ⟨"cannot submit: change has %s rejection", [name]⟩ s1) ∨
          (lab.Rejected = none ∧ lab.Approved = none ∧ runSubmit w
            = .died ⟨"cannot submit: change missing %s approval", [name]⟩ s1)))
      ∧ ∀ pre post, g.LabelNames = pre ++ L :: post →
          (∀ n ∈ pre, ∀ l, g.Labels.lookup n = some l →
            l.Optional = true ∨ (l.Approved ≠ none ∧ l.Rejected = none)) →
          runSubmit w = .died ⟨"cannot submit: change has %s rejection", [L]⟩ s1 := by
  constructor
  · rcases checkLabelsFrom_first_failing g g.LabelNames s1 with hok |
        ⟨pre, name, post, lab, hnames, hpre, hlk, hopt, hcase⟩
    · have hp := ((checkLabelsFrom_ok_iff g g.LabelNames s1 s1).1 hok).2 L
        (lookup_mem_names hl) label hl ho
      exact absurd hp.2 hr
    · refine ⟨pre, name, post, lab, hnames, hpre, hlk, hopt, ?_⟩
      rcases hcase with ⟨hrj, hd⟩ | ⟨hrj, hap, hd⟩
      · exact Or.inl ⟨hrj, runSubmit_label_died h hs hd⟩
      · exact Or.inr ⟨hrj, hap, runSubmit_label_died h hs hd⟩
  · intro pre post hnames hpre
    apply runSubmit_label_died h hs
    rw [hnames, checkLabelsFrom_append g pre (L :: post) s1 hpre]
    exact checkLabelsFrom_rejected g L post s1 label hl ho hr

/-- C4 as stated fails: label `B` is required and rejected, yet the run dies
with the missing-approval message naming label `A`, not with the rejection
message naming `B`. -/
theorem rejection_other_label_reported :
    fetchChange (worldX [.ok changeMissingFirst]) (St.init (worldX [.ok changeMissingFirst]))
        = .ok (commitX, changeMissingFirst) stateX
      ∧ changeMissingFirst.Status = "NEW"
      ∧ changeMissingFirst.Labels.lookup "B" = some ⟨false, some ⟨"gopher"⟩, some ⟨"rsc"⟩⟩
      ∧ runSubmit (worldX [.ok changeMissingFirst])
          = .died ⟨"cannot submit: change missing %s approval", ["A"]⟩ stateX
      ∧ ¬ ∃ s, runSubmit (worldX [.ok changeMissingFirst])
          = .died ⟨"cannot submit: change has %s rejection", ["B"]⟩ s := by
  have hrun : runSubmit (worldX [.ok changeMissingFirst])
      = .died ⟨"cannot submit: change missing %s approval", ["A"]⟩ stateX := rfl
  refine ⟨rfl, rfl, rfl, hrun, ?_⟩
  rintro ⟨s, hs⟩
  rw [hrun] at hs
  simp at hs

/-- C4 as amended, at a concrete world: `A` is required, approved and
rejected, and is the first name visited. -/
theorem rejection_first_failing_witness :
    (fetchChange (worldX [.ok changeRejectedFirst]) (St.init (worldX [.ok changeRejectedFirst]))
        = .ok (commitX, changeRejectedFirst) stateX
      ∧ changeRejectedFirst.Labels.lookup "A" = some ⟨false, some ⟨"gopher"⟩, some ⟨"rsc"⟩⟩)
    ∧ runSubmit (worldX [.ok changeRejectedFirst])
        = .died ⟨"cannot submit: change has %s rejection", ["A"]⟩ stateX :=
  ⟨⟨rfl, rfl⟩,
    (rejection_first_failing (worldX [.ok changeRejectedFirst]) commitX
      changeRejectedFirst stateX "A" ⟨false, some ⟨"gopher"⟩, some ⟨"rsc"⟩⟩ rfl (Or.inl rfl)
      rfl rfl (by simp)).2
      [] ["B"] rfl (fun _ hn => absurd hn (List.not_mem_nil _))⟩

/-! ## What a step adds to the trace -/

theorem Adds.pure {α : Type} (P : Call → Prop) (a : α) : Adds P (pure a : Cmd α) :=
  fun s => ⟨[], by simp [Res.st], by simp⟩

theorem Adds.dief {α : Type} (P : Call → Prop) (f : String) (args : List String) :
    Adds P (dief f args : Cmd α) :=
  fun s => ⟨[], by simp [GitCodereview.dief, Res.st], by simp⟩

theorem Adds.call {P : Call → Prop} {k : Call} (h : P k) : Adds P (call k) :=
  fun s => ⟨[k], by simp [GitCodereview.call, Res.st], by simpa using h⟩

theorem Adds.bind {α β : Type} {P : Call → Prop} {m : Cmd α} {f : α → Cmd β}
    (hm : Adds P m) (hf : ∀ a, Adds P (f a)) : Adds P (m >>= f) := by
  intro s
  obtain ⟨e1, h1, p1⟩ := hm s
  cases hms : m s with
  | ok a s1 =>
    obtain ⟨e2, h2, p2⟩ := hf a s1
    rw [hms] at h1
    simp only [Res.st] at h1
    refine ⟨e1 ++ e2, ?_, ?_⟩
    · simp only [bind_apply, Cmd.bind, hms, h2, h1, List.append_assoc]
    · intro k hk
      rcases List.mem_append.1 hk with hk | hk
      · exact p1 k hk
      · exact p2 k hk
  | died e s1 =>
    rw [hms] at h1
    exact ⟨e1, by simpa only [bind_apply, Cmd.bind, hms] using h1, p1⟩
  | usage s1 =>
    rw [hms] at h1
    exact ⟨e1, by simpa only [bind_apply, Cmd.bind, hms] using h1, p1⟩

theorem Adds.gerritChange {P : Call → Prop} (w : World) (c : Commit)
    (h : P (changeCall c)) : Adds P (gerritChange w c) :=
  fun s => ⟨[changeCall c], by simp [GitCodereview.gerritChange, Res.st, changeCall],
    by simpa using h⟩

theorem Adds.runErr {P : Call → Prop} (cmd : String) (args : List String)
    (err : Option String) (h : P (.exec cmd args)) : Adds P (runErr cmd args err) := by
  unfold GitCodereview.runErr
  exact Adds.bind (Adds.call h) (fun _ => Adds.pure P _)

theorem Adds.run {P : Call → Prop} (cmd : String) (args : List String)
    (err : Option String) (h : P (.exec cmd args)) : Adds P (run cmd args err) := by
  unfold GitCodereview.run
  refine Adds.bind (Adds.runErr cmd args err h) (fun r => ?_)
  cases r
  · exact Adds.pure P _
  · exact Adds.dief P _ _

theorem Adds.checkMergeable (P : Call → Prop) (w : World) (g : GerritChange) :
    Adds P (checkMergeable w g) := by
  unfold GitCodereview.checkMergeable
  split
  · exact Adds.dief P _ _
  · split
    · exact Adds.dief P _ _
    · exact Adds.pure P _

theorem Adds.submit {P : Call → Prop} (w : World) (c : Commit) (h : P (submitCall w c)) :
    Adds P (submit w c) := by
  unfold GitCodereview.submit
  refine Adds.bind (Adds.bind (Adds.call h) (fun _ => Adds.pure P _)) (fun r => ?_)
  cases r
  · exact Adds.pure P _
  · exact Adds.dief P _ _

theorem Adds.pollLoop {P : Call → Prop} (w : World) (c : Commit)
    (hs : ∀ d, P (.sleep d)) (hf : P (changeCall c)) (n : Nat) (g : GerritChange) :
    Adds P (pollLoop w c n g) := by
  induction n generalizing g with
  | zero => exact Adds.pure P g
  | succ n ih =>
    unfold GitCodereview.pollLoop
    refine Adds.bind (Adds.call (hs _)) (fun _ => ?_)
    refine Adds.bind (Adds.gerritChange w c hf) (fun r => ?_)
    cases r with
    | error e => exact Adds.dief P _ _
    | ok g1 =>
      show Adds P (if g1.Status ≠ "SUBMITTED" then _ else _)
      split
      · exact Adds.pure P g1
      · exact ih g1

theorem Adds.checkPostStatus (P : Call → Prop) (g : GerritChange) :
    Adds P (checkPostStatus g) := by
  unfold GitCodereview.checkPostStatus
  split
  · exact Adds.pure P _
  · split
    · exact Adds.dief P _ _
    · exact Adds.dief P _ _

theorem Adds.reconcile {P : Call → Prop} (w : World) (g : GerritChange)
    (hf : P (.exec "git" ["fetch", "-q"]))
    (hc : P (.exec "git" ["checkout", "-q", "-B", w.b.Name, g.CurrentRevision, "--"]))
    (hp : P (.printf ⟨"submit succeeded; run 'git sync' to sync", []⟩)) :
    Adds P (reconcile w g) := by
  unfold GitCodereview.reconcile
  refine Adds.bind (Adds.run _ _ _ hf) (fun _ => ?_)
  split
  · refine Adds.bind (Adds.runErr _ _ _ hc) (fun r => ?_)
    cases r
    · exact fun s => ⟨[], by simp [setBranch, Res.st], by simp⟩
    · exact Adds.dief P _ _
  · exact Adds.call hp

/-- The calls made from the polling loop on. -/
theorem Adds.mergeWait {P : Call → Prop} (w : World) (c : Commit) (g : GerritChange)
    (hs : ∀ d, P (.sleep d)) (hg : P (changeCall c))
    (hf : P (.exec "git" ["fetch", "-q"]))
    (hc : ∀ rev, P (.exec "git" ["checkout", "-q", "-B", w.b.Name, rev, "--"]))
    (hp : P (.printf ⟨"submit succeeded; run 'git sync' to sync", []⟩)) :
    Adds P (mergeWait w c g) := by
  unfold GitCodereview.mergeWait
  refine Adds.bind (Adds.pollLoop w c hs hg _ g) (fun g1 => ?_)
  exact Adds.bind (Adds.checkPostStatus P g1) (fun _ => Adds.reconcile w g1 hf (hc _) hp)

/-- The calls made from the mergeability check on. -/
theorem Adds.afterUpload {P : Call → Prop} (w : World) (c : Commit) (g : GerritChange)
    (ha : P (submitCall w c))
    (hs : ∀ d, P (.sleep d)) (hg : P (changeCall c))
    (hf : P (.exec "git" ["fetch", "-q"]))
    (hc : ∀ rev, P (.exec "git" ["checkout", "-q", "-B", w.b.Name, rev, "--"]))
    (hp : P (.printf ⟨"submit succeeded; run 'git sync' to sync", []⟩)) :
    Adds P (afterUpload w c g) := by
  unfold GitCodereview.afterUpload
  refine Adds.bind (Adds.checkMergeable P w g) (fun _ => ?_)
  exact Adds.bind (Adds.submit w c ha) (fun _ => Adds.mergeWait w c g hs hg hf hc hp)

/-- No call made from the mergeability check on is a `git push`. -/
theorem afterUpload_no_push (w : World) (c : Commit) (g : GerritChange) :
    Adds (fun k => k.isPush = false) (afterUpload w c g) :=
  Adds.afterUpload w c g rfl (fun _ => rfl) rfl rfl (fun _ => rfl) rfl

/-! ## The upload step -/

theorem approvalGate_inv {w : World} {c : Commit} {g : GerritChange} {s s1 : St}
    (h : approvalGate w s = .ok (c, g) s1) :
    fetchChange w s = .ok (c, g) s1 ∧ (g.Status = "NEW" ∨ g.Status = "SUBMITTED") := by
  simp only [approvalGate, bind_apply] at h
  obtain ⟨⟨c0, g0⟩, sa, hf, h1⟩ := bind_ok_inv h
  simp only [bind_apply] at h1
  obtain ⟨_, sb, hst, h2⟩ := bind_ok_inv h1
  simp only [bind_apply] at h2
  obtain ⟨_, sc, hl, h3⟩ := bind_ok_inv h2
  obtain ⟨rfl, hs⟩ := checkStatus_inv hst
  obtain ⟨rfl, _⟩ := (checkLabels_ok_iff g0 _ _).1 hl
  simp only [pure_apply, Res.ok.injEq, Prod.mk.injEq] at h3
  obtain ⟨⟨rfl, rfl⟩, rfl⟩ := h3
  exact ⟨hf, hs⟩

/-- The state after the label check, in a run from the initial state. -/
theorem approvalGate_state {w : World} {c : Commit} {g : GerritChange} {s1 : St}
    (h : approvalGate w (St.init w) = .ok (c, g) s1) :
    s1 = ⟨fetchCalls c, 1, w.head⟩ ∧ w.gerritChange 0 = .ok g := by
  have h2 := fetchChange_inv (approvalGate_inv h).1
  simpa [St.init] using h2

theorem upload_same (w : World) (c : Commit) (g : GerritChange) (s : St)
    (heq : c.Hash = g.CurrentRevision) : upload w c g s = .ok g s := by
  simp [upload, heq]

theorem upload_push_failed (w : World) (c : Commit) (g : GerritChange) (s : St) (e : String)
    (hne : c.Hash ≠ g.CurrentRevision) (hp : w.pushErr = some e) :
    upload w c g s = .died ⟨"%v", [e]⟩ ⟨s.trace ++ [pushCall w c], s.fetched, s.branchPtr⟩ := by
  simp [upload, hne, run, runErr, Cmd.bind, call, hp, dief, pushCall, Cmd.pure]

theorem upload_push_refetch (w : World) (c : Commit) (g g1 : GerritChange) (s : St)
    (hne : c.Hash ≠ g.CurrentRevision) (hp : w.pushErr = none)
    (hg : w.gerritChange s.fetched = .ok g1) :
    upload w c g s
      = .ok g1 ⟨s.trace ++ [pushCall w c, changeCall c], s.fetched + 1, s.branchPtr⟩ := by
  simp [upload, hne, run, runErr, Cmd.bind, call, hp, pushCall, Cmd.pure,
    gerritChange, hg, changeCall]

theorem upload_refetch_failed (w : World) (c : Commit) (g : GerritChange) (s : St)
    (e : String) (hne : c.Hash ≠ g.CurrentRevision) (hp : w.pushErr = none)
    (hg : w.gerritChange s.fetched = .error e) :
    upload w c g s
      = .died ⟨"%v", [e]⟩
          ⟨s.trace ++ [pushCall w c, changeCall c], s.fetched + 1, s.branchPtr⟩ := by
  simp [upload, hne, run, runErr, Cmd.bind, call, hp, pushCall, Cmd.pure,
    gerritChange, hg, changeCall, dief]

theorem upload_inv {w : World} {c : Commit} {g g1 : GerritChange} {s s2 : St}
    (h : upload w c g s = .ok g1 s2) :
    (c.Hash = g.CurrentRevision ∧ g1 = g ∧ s2 = s) ∨
      (c.Hash ≠ g.CurrentRevision ∧ w.pushErr = none ∧ w.gerritChange s.fetched = .ok g1 ∧
        s2 = ⟨s.trace ++ [pushCall w c, changeCall c], s.fetched + 1, s.branchPtr⟩) := by
  by_cases heq : c.Hash = g.CurrentRevision
  · rw [upload_same w c g s heq] at h
    cases h
    exact Or.inl ⟨heq, rfl, rfl⟩
  · right
    cases hp : w.pushErr with
    | some e => rw [upload_push_failed w c g s e heq hp] at h; cases h
    | none =>
      cases hg : w.gerritChange s.fetched with
      | error e => rw [upload_refetch_failed w c g s e heq hp hg] at h; cases h
      | ok g2 =>
        rw [upload_push_refetch w c g g2 s heq hp hg] at h
        cases h
        exact ⟨heq, rfl, rfl, rfl⟩

theorem uploadStep_inv {w : World} {c : Commit} {g : GerritChange} {s s2 : St}
    (h : uploadStep w s = .ok (c, g) s2) :
    ∃ g0 s1, approvalGate w s = .ok (c, g0) s1 ∧ upload w c g0 s1 = .ok g s2 := by
  simp only [uploadStep, bind_apply] at h
  obtain ⟨⟨c0, g0⟩, s1, ha, h1⟩ := bind_ok_inv h
  simp only [bind_apply] at h1
  obtain ⟨g1, sb, hu, h2⟩ := bind_ok_inv h1
  simp only [pure_apply, Res.ok.injEq, Prod.mk.injEq] at h2
  obtain ⟨⟨rfl, rfl⟩, rfl⟩ := h2
  exact ⟨g0, s1, ha, hu⟩

theorem uploadStep_of_upload {w : World} {c : Commit} {g0 g : GerritChange} {s s1 s2 : St}
    (ha : approvalGate w s = .ok (c, g0) s1) (hu : upload w c g0 s1 = .ok g s2) :
    uploadStep w s = .ok (c, g) s2 := by
  simp only [uploadStep, bind_apply, Cmd.bind, ha, hu, pure_apply]

theorem cmdSubmit_of_upload {w : World} {c : Commit} {g0 g : GerritChange} {s s1 s2 : St}
    (ha : approvalGate w s = .ok (c, g0) s1) (hu : upload w c g0 s1 = .ok g s2) :
    cmdSubmit w s = afterUpload w c g s2 := by
  rw [cmdSubmit_of_approvalGate ha]
  simp only [submitChange, bind_apply, Cmd.bind, hu]

theorem cmdSubmit_of_uploadStep {w : World} {c : Commit} {g : GerritChange} {s s2 : St}
    (h : uploadStep w s = .ok (c, g) s2) : cmdSubmit w s = afterUpload w c g s2 := by
  obtain ⟨g0, s1, ha, hu⟩ := uploadStep_inv h
  exact cmdSubmit_of_upload ha hu

/-- The trace of a run at the mergeability check: the first fetch, and the
push and second fetch if there was an upload. -/
theorem uploadStep_state {w : World} {c : Commit} {g : GerritChange} {s2 : St}
    (h : uploadStep w (St.init w) = .ok (c, g) s2) :
    s2 = ⟨fetchCalls c, 1, w.head⟩ ∨
      s2 = ⟨fetchCalls c ++ [pushCall w c, changeCall c], 2, w.head⟩ := by
  obtain ⟨g0, s1, ha, hu⟩ := uploadStep_inv h
  obtain ⟨rfl, _⟩ := approvalGate_state ha
  rcases upload_inv hu with ⟨_, _, rfl⟩ | ⟨_, _, _, rfl⟩
  · exact Or.inl rfl
  · exact Or.inr rfl

theorem checkMergeable_false (w : World) (g : GerritChange) (s : St)
    (hm : g.Mergeable = false) :
    checkMergeable w g s
      = .died ⟨"cannot submit: conflicting changes submitted, run 'git sync'", []⟩ s := by
  simp [checkMergeable, hm, dief]

theorem checkMergeable_ok (w : World) (g : GerritChange) (s : St)
    (hm : g.Mergeable = true) (hn : w.noRun = false) :
    checkMergeable w g s = .ok () s := by
  simp [checkMergeable, hm, hn]

theorem afterUpload_not_mergeable (w : World) (c : Commit) (g : GerritChange) (s : St)
    (hm : g.Mergeable = false) :
    afterUpload w c g s
      = .died ⟨"cannot submit: conflicting changes submitted, run 'git sync'", []⟩ s := by
  simp only [afterUpload, bind_apply, Cmd.bind, checkMergeable_false w g s hm]

theorem afterUpload_mergeable (w : World) (c : Commit) (g : GerritChange) (s : St)
    (hm : g.Mergeable = true) (hn : w.noRun = false) :
    afterUpload w c g s = (submit w c >>= fun _ => mergeWait w c g) s := by
  simp only [afterUpload, bind_apply, Cmd.bind, checkMergeable_ok w g s hm hn]

theorem mem_fetchCalls {c : Commit} {k : Call} (h : k ∈ fetchCalls c) :
    k.isPush = false ∧ k.isSubmit = false ∧ k.isCheckout = false ∧ k.isSleep = false ∧
      k.isGitFetch = false := by
  simp [fetchCalls] at h
  rcases h with rfl | rfl | rfl <;> exact ⟨rfl, rfl, rfl, rfl, rfl⟩

/-- C8: in a run that passes the status and label checks, when the hash of
the commit equals the current revision of the first fetched change, the upload
step makes no call (no push, no second fetch), the mergeability check tests
the change of the first fetch, and no call of the whole run is a git push. -/
theorem no_push_when_revision_matches (w : World) (c : Commit) (g : GerritChange) (s1 : St)
    (h : approvalGate w (St.init w) = .ok (c, g) s1)
    (heq : c.Hash = g.CurrentRevision) :
    upload w c g s1 = .ok g s1
      ∧ s1 = ⟨fetchCalls c, 1, w.head⟩
      ∧ w.gerritChange 0 = .ok g
      ∧ runSubmit w = afterUpload w c g s1
      ∧ (g.Mergeable = false → runSubmit w
          = .died ⟨"cannot submit: conflicting changes submitted, run 'git sync'", []⟩ s1)
      ∧ ∀ k ∈ (runSubmit w).st.trace, k.isPush = false := by
  have hu := upload_same w c g s1 heq
  have hrun : runSubmit w = afterUpload w c g s1 := cmdSubmit_of_upload h hu
  obtain ⟨hs1, hg⟩ := approvalGate_state h
  refine ⟨hu, hs1, hg, hrun, ?_, ?_⟩
  · intro hm
    rw [hrun, afterUpload_not_mergeable w c g s1 hm]
  · obtain ⟨ext, he, hp⟩ := afterUpload_no_push w c g s1
    rw [hrun, he]
    intro k hk
    rcases List.mem_append.1 hk with hk | hk
    · rw [hs1] at hk
      exact (mem_fetchCalls hk).1
    · exact hp k hk

/-- C8 at a concrete world: the server already has the revision of the
commit. -/
theorem no_push_when_revision_matches_witness :
    (approvalGate (worldX [.ok (changeX "NEW")]) (St.init (worldX [.ok (changeX "NEW")]))
        = .ok (commitX, changeX "NEW") stateX
      ∧ commitX.Hash = (changeX "NEW").CurrentRevision)
    ∧ ∀ k ∈ (runSubmit (worldX [.ok (changeX "NEW")])).st.trace, k.isPush = false :=
  ⟨⟨rfl, rfl⟩,
    (no_push_when_revision_matches (worldX [.ok (changeX "NEW")]) commitX (changeX "NEW")
      stateX rfl rfl).2.2.2.2.2⟩

/-- C9, as the code has it: in a run that passes the status and label
checks, when the hash of the commit differs from the current revision of the
first fetched change, the run makes exactly one git push, of the push spec of
the commit; when the push succeeds the next call is a second fetch of the
change, and when that fetch answers, the mergeability check and the rest of
the run use the change of the second fetch; when the push fails the run dies
with the error of the push, the push being its last call. -/
theorem push_once_then_refetch (w : World) (c : Commit) (g : GerritChange) (s1 : St)
    (h : approvalGate w (St.init w) = .ok (c, g) s1)
    (hne : c.Hash ≠ g.CurrentRevision) :
    (runSubmit w).st.trace.filter Call.isPush = [pushCall w c]
      ∧ (w.pushErr = none →
          fetchCalls c ++ [pushCall w c, changeCall c] <+: (runSubmit w).st.trace)
      ∧ (∀ g1, w.pushErr = none → w.gerritChange 1 = .ok g1 →
          uploadStep w (St.init w)
              = .ok (c, g1) ⟨fetchCalls c ++ [pushCall w c, changeCall c], 2, w.head⟩
            ∧ runSubmit w
              = afterUpload w c g1 ⟨fetchCalls c ++ [pushCall w c, changeCall c], 2, w.head⟩
            ∧ (g1.Mergeable = false → runSubmit w
                = .died ⟨"cannot submit: conflicting changes submitted, run 'git sync'", []⟩
                    ⟨fetchCalls c ++ [pushCall w c, changeCall c], 2, w.head⟩)
            ∧ (g1.Mergeable = true → w.noRun = false → runSubmit w
                = (submit w c >>= fun _ => mergeWait w c g1)
                    ⟨fetchCalls c ++ [pushCall w c, changeCall c], 2, w.head⟩))
      ∧ ∀ e, w.pushErr = some e →
          runSubmit w = .died ⟨"%v", [e]⟩ ⟨fetchCalls c ++ [pushCall w c], 1, w.head⟩ := by
  obtain ⟨rfl, _⟩ := approvalGate_state h
  have hsub : runSubmit w = submitChange w c g ⟨fetchCalls c, 1, w.head⟩ :=
    cmdSubmit_of_approvalGate h
  have hfilter : (fetchCalls c ++ [pushCall w c, changeCall c]).filter Call.isPush
      = [pushCall w c] := by
    simp [fetchCalls, List.filter, Call.isPush, pushCall, changeCall]
  have hok : ∀ g1, w.pushErr = none → w.gerritChange 1 = .ok g1 →
      upload w c g ⟨fetchCalls c, 1, w.head⟩
        = .ok g1 ⟨fetchCalls c ++ [pushCall w c, changeCall c], 2, w.head⟩ :=
    fun g1 hp hg => upload_push_refetch w c g g1 _ hne hp hg
  refine ⟨?_, ?_, ?_, ?_⟩
  rotate_left 3
  · intro e hp
    have hu := upload_push_failed w c g ⟨fetchCalls c, 1, w.head⟩ e hne hp
    rw [hsub]
    simp only [submitChange, bind_apply, Cmd.bind, hu]
  · cases hp : w.pushErr with
    | some e =>
      have hu := upload_push_failed w c g ⟨fetchCalls c, 1, w.head⟩ e hne hp
      rw [hsub]
      simp only [submitChange, bind_apply, Cmd.bind, hu, Res.st]
      simp [fetchCalls, List.filter, Call.isPush, pushCall]
    | none =>
      cases hg : w.gerritChange 1 with
      | error e =>
        have hu := upload_refetch_failed w c g ⟨fetchCalls c, 1, w.head⟩ e hne hp hg
        rw [hsub]
        simp only [submitChange, bind_apply, Cmd.bind, hu, Res.st]
        exact hfilter
      | ok g1 =>
        have hrun : runSubmit w = afterUpload w c g1 _ := cmdSubmit_of_upload h (hok g1 hp hg)
        obtain ⟨ext, he, hx⟩ := afterUpload_no_push w c g1
          ⟨fetchCalls c ++ [pushCall w c, changeCall c], 2, w.head⟩
        have hnil : ext.filter Call.isPush = [] := by
          rw [List.filter_eq_nil_iff]
          intro k hk
          simp [hx k hk]
        rw [hrun, he, List.filter_append, hfilter, hnil]
        rfl
  · intro hp
    cases hg : w.gerritChange 1 with
    | error e =>
      have hu := upload_refetch_failed w c g ⟨fetchCalls c, 1, w.head⟩ e hne hp hg
      rw [hsub]
      simp only [submitChange, bind_apply, Cmd.bind, hu, Res.st]
      exact List.prefix_refl _
    | ok g1 =>
      have hrun : runSubmit w = afterUpload w c g1 _ := cmdSubmit_of_upload h (hok g1 hp hg)
      obtain ⟨ext, he, _⟩ := afterUpload_no_push w c g1
        ⟨fetchCalls c ++ [pushCall w c, changeCall c], 2, w.head⟩
      rw [hrun, he]
      exact List.prefix_append _ _
  · intro g1 hp hg
    have hrun : runSubmit w = afterUpload w c g1 _ := cmdSubmit_of_upload h (hok g1 hp hg)
    refine ⟨uploadStep_of_upload h (hok g1 hp hg), hrun, ?_, ?_⟩
    · intro hm
      rw [hrun, afterUpload_not_mergeable w c g1 _ hm]
    · intro hm hn
      rw [hrun, afterUpload_mergeable w c g1 _ hm hn]

/-- C9 at a concrete world: the server has an older, mergeable revision; the
second fetch answers with a change that cannot be merged, and that decides. -/
theorem push_once_then_refetch_witness :
    (approvalGate (worldX [.ok changeOld, .ok changeConflict])
          (St.init (worldX [.ok changeOld, .ok changeConflict]))
        = .ok (commitX, changeOld) stateX
      ∧ commitX.Hash ≠ changeOld.CurrentRevision)
    ∧ (runSubmit (worldX [.ok changeOld, .ok changeConflict])).st.trace.filter Call.isPush
        = [pushCall (worldX [.ok changeOld, .ok changeConflict]) commitX]
    ∧ runSubmit (worldX [.ok changeOld, .ok changeConflict])
        = .died ⟨"cannot submit: conflicting changes submitted, run 'git sync'", []⟩
            stateXPushed :=
  ⟨⟨rfl, by decide⟩,
    (push_once_then_refetch (worldX [.ok changeOld, .ok changeConflict]) commitX changeOld
      stateX rfl (by decide)).1,
    ((push_once_then_refetch (worldX [.ok changeOld, .ok changeConflict]) commitX changeOld
      stateX rfl (by decide)).2.2.1 changeConflict rfl rfl).2.2.1 rfl⟩

/-- C9 as stated fails: the hash of the commit differs from the revision of
the first fetched change and the push fails; the run dies with the error of
the push and the change is not fetched again. -/
theorem failed_push_is_not_followed_by_fetch :
    approvalGate worldPushFails (St.init worldPushFails) = .ok (commitX, changeOld) stateX
      ∧ commitX.Hash ≠ changeOld.CurrentRevision
      ∧ worldPushFails.pushErr = some "remote rejected"
      ∧ runSubmit worldPushFails
        = .died ⟨"%v", ["remote rejected"]⟩
            ⟨fetchCalls commitX ++ [pushCall worldPushFails commitX], 1, "abc123"⟩
      ∧ (runSubmit worldPushFails).st.trace.countP Call.isChangeFetch = 1
      ∧ ¬ (fetchCalls commitX ++ [pushCall worldPushFails commitX, changeCall commitX]
            <+: (runSubmit worldPushFails).st.trace) := by
  have hrun : runSubmit worldPushFails
      = .died ⟨"%v", ["remote rejected"]⟩
          ⟨fetchCalls commitX ++ [pushCall worldPushFails commitX], 1, "abc123"⟩ := rfl
  refine ⟨rfl, by decide, rfl, hrun, by rw [hrun]; rfl, ?_⟩
  intro hpre
  have hlen := hpre.length_le
  rw [hrun] at hlen
  simp [Res.st, fetchCalls] at hlen

/-! ## The mergeability check -/

/-- C10: a run that reaches the mergeability check with a change whose
mergeable flag is false dies there with the not-mergeable message; its trace
is the first fetch, with the push and the second fetch if there was an
upload, so it has no submit request, no sleep or poll fetch and no checkout. -/
theorem not_mergeable_fails_before_submit (w : World) (c : Commit) (g : GerritChange)
    (s2 : St) (h : uploadStep w (St.init w) = .ok (c, g) s2) (hm : g.Mergeable = false) :
    runSubmit w
        = .died ⟨"cannot submit: conflicting changes submitted, run 'git sync'", []⟩ s2
      ∧ (s2.trace = fetchCalls c ∨ s2.trace = fetchCalls c ++ [pushCall w c, changeCall c])
      ∧ ∀ k ∈ (runSubmit w).st.trace,
          k.isSubmit = false ∧ k.isSleep = false ∧ k.isCheckout = false := by
  have hrun : runSubmit w
      = .died ⟨"cannot submit: conflicting changes submitted, run 'git sync'", []⟩ s2 := by
    have h1 : runSubmit w = afterUpload w c g s2 := cmdSubmit_of_uploadStep h
    rw [h1, afterUpload_not_mergeable w c g s2 hm]
  have hst := uploadStep_state h
  refine ⟨hrun, ?_, ?_⟩
  · rcases hst with rfl | rfl
    · exact Or.inl rfl
    · exact Or.inr rfl
  · rw [hrun]
    intro k hk
    simp only [Res.st] at hk
    rcases hst with rfl | rfl
    · have := mem_fetchCalls hk
      exact ⟨this.2.1, this.2.2.2.1, this.2.2.1⟩
    · rcases List.mem_append.1 hk with hk | hk
      · have := mem_fetchCalls hk
        exact ⟨this.2.1, this.2.2.2.1, this.2.2.1⟩
      · simp at hk
        rcases hk with rfl | rfl <;> exact ⟨rfl, rfl, rfl⟩

/-- C10 at a concrete world (scenario B): status NEW, and the change is not
mergeable after the second fetch. -/
theorem not_mergeable_fails_before_submit_witness :
    (uploadStep (worldX [.ok changeOld, .ok changeConflict])
          (St.init (worldX [.ok changeOld, .ok changeConflict]))
        = .ok (commitX, changeConflict) stateXPushed
      ∧ changeConflict.Mergeable = false)
    ∧ runSubmit (worldX [.ok changeOld, .ok changeConflict])
        = .died ⟨"cannot submit: conflicting changes submitted, run 'git sync'", []⟩
            stateXPushed
    ∧ ∀ k ∈ (runSubmit (worldX [.ok changeOld, .ok changeConflict])).st.trace,
        k.isSubmit = false ∧ k.isSleep = false ∧ k.isCheckout = false :=
  ⟨⟨rfl, rfl⟩,
    (not_mergeable_fails_before_submit (worldX [.ok changeOld, .ok changeConflict]) commitX
      changeConflict stateXPushed rfl rfl).1,
    (not_mergeable_fails_before_submit (worldX [.ok changeOld, .ok changeConflict]) commitX
      changeConflict stateXPushed rfl rfl).2.2⟩

/-! ## The submit request and the polling loop -/

theorem submit_ok (w : World) (c : Commit) (s : St) (h : w.submitErr = none) :
    submit w c s = .ok () ⟨s.trace ++ [submitCall w c], s.fetched, s.branchPtr⟩ := by
  simp [submit, gerritAPI, Cmd.bind, call, h, Cmd.pure, submitCall]

theorem submit_failed (w : World) (c : Commit) (s : St) (e : String)
    (h : w.submitErr = some e) :
    submit w c s
      = .died ⟨"cannot submit: %v", [e]⟩
          ⟨s.trace ++ [submitCall w c], s.fetched, s.branchPtr⟩ := by
  simp [submit, gerritAPI, Cmd.bind, call, h, Cmd.pure, submitCall, dief]

theorem checkMergeable_inv {w : World} {g : GerritChange} {s s1 : St}
    (h : checkMergeable w g s = .ok () s1) :
    s1 = s ∧ g.Mergeable = true ∧ w.noRun = false := by
  cases hm : g.Mergeable with
  | false => rw [checkMergeable_false w g s hm] at h; cases h
  | true =>
    cases hn : w.noRun with
    | false =>
      rw [checkMergeable_ok w g s hm hn] at h
      cases h
      exact ⟨rfl, rfl, rfl⟩
    | true => simp [checkMergeable, hm, hn, dief] at h

theorem submit_inv {w : World} {c : Commit} {s s1 : St} (h : submit w c s = .ok () s1) :
    s1 = ⟨s.trace ++ [submitCall w c], s.fetched, s.branchPtr⟩ ∧ w.submitErr = none := by
  cases he : w.submitErr with
  | none =>
    rw [submit_ok w c s he] at h
    cases h
    exact ⟨rfl, rfl⟩
  | some e => rw [submit_failed w c s e he] at h; cases h

theorem submitExecutor_inv {w : World} {c : Commit} {g : GerritChange} {s s3 : St}
    (h : submitExecutor w s = .ok (c, g) s3) :
    ∃ s2, uploadStep w s = .ok (c, g) s2 ∧ g.Mergeable = true ∧ w.noRun = false ∧
      w.submitErr = none ∧ s3 = ⟨s2.trace ++ [submitCall w c], s2.fetched, s2.branchPtr⟩ := by
  simp only [submitExecutor, bind_apply] at h
  obtain ⟨⟨c0, g0⟩, s2, hu, h1⟩ := bind_ok_inv h
  simp only [bind_apply] at h1
  obtain ⟨_, sa, hm, h2⟩ := bind_ok_inv h1
  simp only [bind_apply] at h2
  obtain ⟨_, sb, hsub, h3⟩ := bind_ok_inv h2
  simp only [pure_apply, Res.ok.injEq, Prod.mk.injEq] at h3
  obtain ⟨⟨rfl, rfl⟩, rfl⟩ := h3
  obtain ⟨rfl, hmg, hn⟩ := checkMergeable_inv hm
  obtain ⟨rfl, he⟩ := submit_inv hsub
  exact ⟨sa, hu, hmg, hn, he, rfl⟩

theorem cmdSubmit_of_submitExecutor {w : World} {c : Commit} {g : GerritChange} {s s3 : St}
    (h : submitExecutor w s = .ok (c, g) s3) : cmdSubmit w s = mergeWait w c g s3 := by
  obtain ⟨s2, hu, hm, hn, he, rfl⟩ := submitExecutor_inv h
  rw [cmdSubmit_of_uploadStep hu, afterUpload_mergeable w c g s2 hm hn]
  simp only [bind_apply, Cmd.bind, submit_ok w c s2 he]

/-- The trace of a run at the start of the polling loop: the first fetch,
the push and the second fetch if there was an upload, and the submit request;
the branch pointer is the initial one. -/
theorem submitExecutor_state {w : World} {c : Commit} {g : GerritChange} {s3 : St}
    (h : submitExecutor w (St.init w) = .ok (c, g) s3) :
    s3 = ⟨fetchCalls c ++ [submitCall w c], 1, w.head⟩ ∨
      s3 = ⟨fetchCalls c ++ [pushCall w c, changeCall c] ++ [submitCall w c], 2, w.head⟩ := by
  obtain ⟨s2, hu, _, _, _, rfl⟩ := submitExecutor_inv h
  rcases uploadStep_state hu with rfl | rfl
  · exact Or.inl rfl
  · exact Or.inr rfl

theorem submitExecutor_trace {w : World} {c : Commit} {g : GerritChange} {s3 : St}
    (h : submitExecutor w (St.init w) = .ok (c, g) s3) :
    ∀ k ∈ s3.trace, k.isGitFetch = false ∧ k.isCheckout = false ∧ k.isSleep = false := by
  intro k hk
  have hf : ∀ k ∈ fetchCalls c,
      k.isGitFetch = false ∧ k.isCheckout = false ∧ k.isSleep = false :=
    fun k hk => ⟨(mem_fetchCalls hk).2.2.2.2, (mem_fetchCalls hk).2.2.1,
      (mem_fetchCalls hk).2.2.2.1⟩
  rcases submitExecutor_state h with rfl | rfl
  · rcases List.mem_append.1 hk with hk | hk
    · exact hf k hk
    · simp at hk
      subst hk
      exact ⟨rfl, rfl, rfl⟩
  · simp only [List.append_assoc, List.mem_append] at hk
    rcases hk with hk | hk | hk
    · exact hf k hk
    · simp at hk
      rcases hk with rfl | rfl <;> exact ⟨rfl, rfl, rfl⟩
    · simp at hk
      subst hk
      exact ⟨rfl, rfl, rfl⟩

theorem pollLoop_succ (w : World) (c : Commit) (r : Nat) (g g1 : GerritChange) (s : St)
    (hg : w.gerritChange s.fetched = .ok g1) :
    pollLoop w c (r + 1) g s
      = (if g1.Status ≠ "SUBMITTED" then pure g1 else pollLoop w c r g1)
          ⟨s.trace ++ [.sleep (sleepDuration (steps - (r + 1))), changeCall c],
            s.fetched + 1, s.branchPtr⟩ := by
  simp [pollLoop, sleep, call, Cmd.bind, gerritChange, hg, changeCall]

theorem pollLoop_error (w : World) (c : Commit) (r : Nat) (g : GerritChange) (s : St)
    (e : String) (hg : w.gerritChange s.fetched = .error e) :
    pollLoop w c (r + 1) g s
      = .died ⟨"waiting for merge: %v", [e]⟩
          ⟨s.trace ++ [.sleep (sleepDuration (steps - (r + 1))), changeCall c],
            s.fetched + 1, s.branchPtr⟩ := by
  simp [pollLoop, sleep, call, Cmd.bind, gerritChange, hg, changeCall, dief]

/-- The loop stops at the first fetch whose status is not SUBMITTED: after
`m` fetches of status SUBMITTED and one of another status, with at least
`m + 1` iterations left, it has made `m + 1` sleeps and fetches. -/
theorem pollLoop_stops (w : World) (c : Commit) (gk : GerritChange) (m : Nat) :
    ∀ (r : Nat) (g : GerritChange) (s : St), r ≤ steps → m < r →
      (∀ j, j < m → ∃ gj, w.gerritChange (s.fetched + j) = .ok gj ∧ gj.Status = "SUBMITTED") →
      w.gerritChange (s.fetched + m) = .ok gk → gk.Status ≠ "SUBMITTED" →
      pollLoop w c r g s
        = .ok gk ⟨s.trace ++ pollCalls c (steps - r) (m + 1), s.fetched + (m + 1),
            s.branchPtr⟩ := by
  induction m with
  | zero =>
    intro r g s _ hr _ hgk hne
    obtain ⟨r, rfl⟩ : ∃ r1, r = r1 + 1 := ⟨r - 1, by omega⟩
    rw [pollLoop_succ w c r g gk s (by simpa using hgk)]
    simp [hne, pollCalls]
  | succ m ih =>
    intro r g s hr6 hr hsub hgk hne
    obtain ⟨r, rfl⟩ : ∃ r1, r = r1 + 1 := ⟨r - 1, by omega⟩
    obtain ⟨g0, hg0, hs0⟩ := hsub 0 (by omega)
    rw [pollLoop_succ w c r g g0 s (by simpa using hg0)]
    simp only [hs0, ne_eq, not_true_eq_false, if_false]
    rw [ih r g0 _ (by omega) (by omega)
      (fun j hj => by
        obtain ⟨gj, h1, h2⟩ := hsub (j + 1) (by omega)
        exact ⟨gj, by rw [← h1]; congr 1; simp only []; omega, h2⟩)
      (by rw [← hgk]; congr 1; simp only []; omega) hne]
    have e : steps - r = steps - (r + 1) + 1 := by omega
    simp only [e, pollCalls, List.append_assoc, List.cons_append, List.nil_append,
      Res.ok.injEq, St.mk.injEq, true_and, and_true]
    omega

/-- With every fetch of status SUBMITTED the loop runs all its remaining
iterations and ends with the last change fetched. -/
theorem pollLoop_exhausted (w : World) (c : Commit) (r : Nat) :
    ∀ (g : GerritChange) (s : St), r ≤ steps → g.Status = "SUBMITTED" →
      (∀ j, j < r → ∃ gj, w.gerritChange (s.fetched + j) = .ok gj ∧ gj.Status = "SUBMITTED") →
      ∃ gl, gl.Status = "SUBMITTED" ∧
        pollLoop w c r g s
          = .ok gl ⟨s.trace ++ pollCalls c (steps - r) r, s.fetched + r, s.branchPtr⟩ := by
  induction r with
  | zero =>
    intro g s _ hg _
    exact ⟨g, hg, by simp [pollLoop, pollCalls]⟩
  | succ r ih =>
    intro g s hr6 _ hsub
    obtain ⟨g0, hg0, hs0⟩ := hsub 0 (by omega)
    obtain ⟨gl, hgl, hl⟩ := ih g0
      ⟨s.trace ++ [.sleep (sleepDuration (steps - (r + 1))), changeCall c],
        s.fetched + 1, s.branchPtr⟩ (by omega) hs0
      (fun j hj => by
        obtain ⟨gj, h1, h2⟩ := hsub (j + 1) (by omega)
        exact ⟨gj, by rw [← h1]; congr 1; simp only []; omega, h2⟩)
    refine ⟨gl, hgl, ?_⟩
    rw [pollLoop_succ w c r g g0 s (by simpa using hg0)]
    simp only [hs0, ne_eq, not_true_eq_false, if_false]
    rw [hl]
    have e : steps - r = steps - (r + 1) + 1 := by omega
    simp only [e, pollCalls, List.append_assoc, List.cons_append, List.nil_append,
      Res.ok.injEq, St.mk.injEq, true_and, and_true]
    omega

theorem pollCalls_fetches (c : Commit) (n : Nat) :
    ∀ i, (pollCalls c i n).countP Call.isChangeFetch = n
      ∧ (pollCalls c i n).countP Call.isSleep = n := by
  induction n with
  | zero => intro i; simp [pollCalls]
  | succ n ih =>
    intro i
    simp [pollCalls, List.countP_cons, Call.isChangeFetch, Call.isSleep, changeCall,
      (ih (i + 1)).1, (ih (i + 1)).2]

theorem mem_pollCalls {c : Commit} {k : Call} (n : Nat) :
    ∀ i, k ∈ pollCalls c i n → k.isGitFetch = false ∧ k.isCheckout = false := by
  induction n with
  | zero => intro i hk; simp [pollCalls] at hk
  | succ n ih =>
    intro i hk
    simp only [pollCalls, List.mem_cons] at hk
    rcases hk with rfl | rfl | hk
    · exact ⟨rfl, rfl⟩
    · exact ⟨rfl, rfl⟩
    · exact ih (i + 1) hk

theorem mergeWait_of_poll {w : World} {c : Commit} {g g1 : GerritChange} {s s4 : St}
    (h : pollLoop w c steps g s = .ok g1 s4) :
    mergeWait w c g s = (checkPostStatus g1 >>= fun _ => reconcile w g1) s4 := by
  simp only [mergeWait, bind_apply, Cmd.bind, h]

theorem checkPostStatus_merged (g : GerritChange) (s : St) (h : g.Status = "MERGED") :
    checkPostStatus g s = .ok () s := by
  simp [checkPostStatus, h]

theorem checkPostStatus_submitted (g : GerritChange) (s : St) (h : g.Status = "SUBMITTED") :
    checkPostStatus g s
      = .died ⟨"cannot submit: timed out waiting for change to be submitted by Gerrit", []⟩
          s := by
  simp [checkPostStatus, h, dief]

theorem checkPostStatus_other (g : GerritChange) (s : St) (h1 : g.Status ≠ "MERGED")
    (h2 : g.Status ≠ "SUBMITTED") :
    checkPostStatus g s
      = .died ⟨"submit error: unexpected post-submit Gerrit change status %q", [g.Status]⟩
          s := by
  simp [checkPostStatus, h1, h2, dief]

/-- C5: in a run that reaches the polling loop, when the fetches before the
k-th one (1 ≤ k ≤ 6) have status SUBMITTED and the k-th has another status,
the loop returns the k-th change after exactly k sleeps and k fetches; the run
then goes on to the sync of the client when that status is MERGED and dies
with the unexpected-post-submit-status message carrying the status
otherwise. -/
theorem poll_stops_at_first_other_status (w : World) (c : Commit) (g gk : GerritChange)
    (s3 : St) (k : Nat)
    (h : submitExecutor w (St.init w) = .ok (c, g) s3)
    (hk1 : 1 ≤ k) (hk6 : k ≤ 6)
    (hsub : ∀ j, j + 1 < k →
      ∃ gj, w.gerritChange (s3.fetched + j) = .ok gj ∧ gj.Status = "SUBMITTED")
    (hgk : w.gerritChange (s3.fetched + (k - 1)) = .ok gk)
    (hne : gk.Status ≠ "SUBMITTED") :
    pollLoop w c steps g s3
        = .ok gk ⟨s3.trace ++ pollCalls c 0 k, s3.fetched + k, s3.branchPtr⟩
      ∧ (pollCalls c 0 k).countP Call.isChangeFetch = k
      ∧ (pollCalls c 0 k).countP Call.isSleep = k
      ∧ (gk.Status = "MERGED" → runSubmit w
          = reconcile w gk ⟨s3.trace ++ pollCalls c 0 k, s3.fetched + k, s3.branchPtr⟩)
      ∧ (gk.Status ≠ "MERGED" → runSubmit w
          = .died ⟨"submit error: unexpected post-submit Gerrit change status %q",
              [gk.Status]⟩
            ⟨s3.trace ++ pollCalls c 0 k, s3.fetched + k, s3.branchPtr⟩) := by
  obtain ⟨m, rfl⟩ : ∃ m, k = m + 1 := ⟨k - 1, by omega⟩
  have hloop := pollLoop_stops w c gk m steps g s3 (Nat.le_refl _)
    (by simp only [steps]; omega) (fun j hj => hsub j (by omega))
    (by simpa using hgk) hne
  simp only [Nat.sub_self] at hloop
  have hrun : runSubmit w = (checkPostStatus gk >>= fun _ => reconcile w gk)
      ⟨s3.trace ++ pollCalls c 0 (m + 1), s3.fetched + (m + 1), s3.branchPtr⟩ := by
    have h1 : runSubmit w = mergeWait w c g s3 := cmdSubmit_of_submitExecutor h
    rw [h1, mergeWait_of_poll hloop]
  refine ⟨hloop, (pollCalls_fetches c (m + 1) 0).1, (pollCalls_fetches c (m + 1) 0).2, ?_, ?_⟩
  · intro hm
    rw [hrun]
    simp only [bind_apply, Cmd.bind, checkPostStatus_merged gk _ hm]
  · intro hm
    rw [hrun]
    simp only [bind_apply, Cmd.bind, checkPostStatus_other gk _ hm hne]

/-- C5 at a concrete world: the polls answer SUBMITTED, SUBMITTED, MERGED; the
loop stops at the third fetch and the run returns, with the branch at the
merged revision. -/
theorem poll_stops_at_first_other_status_witness :
    (submitExecutor (worldX answersMerged) (St.init (worldX answersMerged))
        = .ok (commitX, changeX "NEW") stateXSubmitted
      ∧ (worldX answersMerged).gerritChange 1 = .ok (changeAt "SUBMITTED")
      ∧ (worldX answersMerged).gerritChange 2 = .ok (changeAt "SUBMITTED")
      ∧ (worldX answersMerged).gerritChange 3 = .ok (changeAt "MERGED"))
    ∧ pollLoop (worldX answersMerged) commitX steps (changeX "NEW") stateXSubmitted
        = .ok (changeAt "MERGED")
            ⟨stateXSubmitted.trace ++ pollCalls commitX 0 3, 4, "abc123"⟩
    ∧ runSubmit (worldX answersMerged)
        = .ok () ⟨stateXSubmitted.trace ++ pollCalls commitX 0 3
            ++ syncCalls (worldX answersMerged) (changeAt "MERGED"), 4, "def456"⟩ :=
  ⟨⟨rfl, rfl, rfl, rfl⟩,
    (poll_stops_at_first_other_status (worldX answersMerged) commitX (changeX "NEW")
      (changeAt "MERGED") stateXSubmitted 3 rfl (by decide) (by decide)
      (fun j hj => by
        have hj2 : j = 0 ∨ j = 1 := by omega
        rcases hj2 with rfl | rfl
        · exact ⟨changeAt "SUBMITTED", rfl, rfl⟩
        · exact ⟨changeAt "SUBMITTED", rfl, rfl⟩)
      rfl (by decide)).1,
    rfl⟩

/-- C6: in a run that reaches the polling loop, when the first six poll
fetches all have status SUBMITTED, the loop makes exactly six sleeps and six
fetches and returns (whatever a seventh fetch would answer); the run then dies
with the timed-out message, and its trace has no git fetch and no
checkout. -/
theorem poll_budget_exhausted (w : World) (c : Commit) (g : GerritChange) (s3 : St)
    (h : submitExecutor w (St.init w) = .ok (c, g) s3)
    (hall : ∀ j, j < 6 →
      ∃ gj, w.gerritChange (s3.fetched + j) = .ok gj ∧ gj.Status = "SUBMITTED") :
    (∃ gl, pollLoop w c steps g s3
        = .ok gl ⟨s3.trace ++ pollCalls c 0 6, s3.fetched + 6, s3.branchPtr⟩)
      ∧ (pollCalls c 0 6).countP Call.isChangeFetch = 6
      ∧ (pollCalls c 0 6).countP Call.isSleep = 6
      ∧ runSubmit w
        = .died ⟨"cannot submit: timed out waiting for change to be submitted by Gerrit", []⟩
            ⟨s3.trace ++ pollCalls c 0 6, s3.fetched + 6, s3.branchPtr⟩
      ∧ ∀ k ∈ (runSubmit w).st.trace, k.isGitFetch = false ∧ k.isCheckout = false := by
  obtain ⟨g0, hg0, hs0⟩ := hall 0 (by omega)
  obtain ⟨gl, hgl, hl⟩ := pollLoop_exhausted w c 5 g0
    ⟨s3.trace ++ [.sleep (sleepDuration (steps - (5 + 1))), changeCall c],
      s3.fetched + 1, s3.branchPtr⟩ (by decide) hs0
    (fun j hj => by
      obtain ⟨gj, h1, h2⟩ := hall (j + 1) (by omega)
      exact ⟨gj, by rw [← h1]; congr 1; simp only []; omega, h2⟩)
  have hloop : pollLoop w c steps g s3
      = .ok gl ⟨s3.trace ++ pollCalls c 0 6, s3.fetched + 6, s3.branchPtr⟩ := by
    show pollLoop w c (5 + 1) g s3 = _
    rw [pollLoop_succ w c 5 g g0 s3 (by simpa using hg0)]
    simp only [hs0, ne_eq, not_true_eq_false, if_false]
    rw [hl]
    simp [steps, pollCalls]
  have hrun : runSubmit w
      = .died ⟨"cannot submit: timed out waiting for change to be submitted by Gerrit", []⟩
          ⟨s3.trace ++ pollCalls c 0 6, s3.fetched + 6, s3.branchPtr⟩ := by
    have h1 : runSubmit w = mergeWait w c g s3 := cmdSubmit_of_submitExecutor h
    rw [h1, mergeWait_of_poll hloop]
    simp only [bind_apply, Cmd.bind, checkPostStatus_submitted gl _ hgl]
  refine ⟨⟨gl, hloop⟩, (pollCalls_fetches c 6 0).1, (pollCalls_fetches c 6 0).2, hrun, ?_⟩
  rw [hrun]
  intro k hk
  simp only [Res.st] at hk
  rcases List.mem_append.1 hk with hk | hk
  · exact ⟨(submitExecutor_trace h k hk).1, (submitExecutor_trace h k hk).2.1⟩
  · exact mem_pollCalls 6 0 hk

/-- C6 at a concrete world: six polls answer SUBMITTED and a seventh would
answer MERGED; the run times out after the sixth. -/
theorem poll_budget_exhausted_witness :
    (submitExecutor (worldX answersPending) (St.init (worldX answersPending))
        = .ok (commitX, changeX "NEW") stateXSubmitted
      ∧ (worldX answersPending).gerritChange 7 = .ok (changeAt "MERGED"))
    ∧ runSubmit (worldX answersPending)
        = .died ⟨"cannot submit: timed out waiting for change to be submitted by Gerrit", []⟩
            ⟨stateXSubmitted.trace ++ pollCalls commitX 0 6, 7, "abc123"⟩ :=
  ⟨⟨rfl, rfl⟩,
    (poll_budget_exhausted (worldX answersPending) commitX (changeX "NEW") stateXSubmitted rfl
      (fun j hj => by
        have hj2 : j = 0 ∨ j = 1 ∨ j = 2 ∨ j = 3 ∨ j = 4 ∨ j = 5 := by omega
        rcases hj2 with rfl | rfl | rfl | rfl | rfl | rfl <;>
          exact ⟨changeAt "SUBMITTED", rfl, rfl⟩)).2.2.2.1⟩

/-! ## The sync of the client -/

theorem pollLoop_branchPtr (w : World) (c : Commit) (r : Nat) :
    ∀ (g g1 : GerritChange) (s s4 : St), pollLoop w c r g s = .ok g1 s4 →
      s4.branchPtr = s.branchPtr := by
  induction r with
  | zero =>
    intro g g1 s s4 h
    simp only [pollLoop, pure_apply, Res.ok.injEq] at h
    rw [← h.2]
  | succ r ih =>
    intro g g1 s s4 h
    cases hg : w.gerritChange s.fetched with
    | error e => rw [pollLoop_error w c r g s e hg] at h; cases h
    | ok g0 =>
      rw [pollLoop_succ w c r g g0 s hg] at h
      by_cases hs : g0.Status = "SUBMITTED"
      · simp only [hs, ne_eq, not_true_eq_false, if_false] at h
        have hb := ih g0 g1 _ s4 h
        exact hb
      · simp only [hs, ne_eq, not_false_eq_true, if_true, pure_apply, Res.ok.injEq] at h
        rw [← h.2]

theorem reconcile_checkout_failed (w : World) (g : GerritChange) (s : St) (e : String)
    (hf : w.fetchErr = none) (h1 : w.b.Pending.length = 1) (hc : w.checkoutErr = some e) :
    reconcile w g s
      = .died ⟨cannotSyncFormat, [w.b.Name]⟩
          ⟨s.trace ++ syncCalls w g, s.fetched, s.branchPtr⟩ := by
  simp [reconcile, run, runErr, Cmd.bind, call, hf, h1, hc, dief, Cmd.pure, syncCalls]

/-- C7, as the code has it: after a poll has returned status MERGED, when the
git fetch succeeds, the branch has exactly one pending commit and the
checkout that resets the branch fails, the run ends through `dief`, as for
every fatal error, with the message that the submit succeeded but the local
branch cannot be synced, followed by the recovery hints naming the branch;
the branch pointer is the initial one. -/
theorem failed_reset_dies_with_hint (w : World) (c : Commit) (g gm : GerritChange)
    (s3 s4 : St) (e : String)
    (h : submitExecutor w (St.init w) = .ok (c, g) s3)
    (hp : pollLoop w c steps g s3 = .ok gm s4) (hm : gm.Status = "MERGED")
    (hf : w.fetchErr = none) (h1 : w.b.Pending.length = 1)
    (hc : w.checkoutErr = some e) :
    runSubmit w
        = .died ⟨cannotSyncFormat, [w.b.Name]⟩
            ⟨s4.trace ++ syncCalls w gm, s4.fetched, s4.branchPtr⟩
      ∧ s4.branchPtr = w.head := by
  constructor
  · have hrun : runSubmit w = mergeWait w c g s3 := cmdSubmit_of_submitExecutor h
    rw [hrun, mergeWait_of_poll hp]
    simp only [bind_apply, Cmd.bind, checkPostStatus_merged gm s4 hm]
    exact reconcile_checkout_failed w gm s4 e hf h1 hc
  · rw [pollLoop_branchPtr w c steps g gm s3 s4 hp]
    rcases submitExecutor_state h with rfl | rfl <;> rfl

/-- C7 as stated fails: the first poll answers MERGED, the branch has one
pending commit and the checkout fails; the run does not return but dies, with
the cannot-sync message. -/
theorem failed_reset_is_fatal :
    submitExecutor worldCheckoutFails (St.init worldCheckoutFails)
        = .ok (commitX, changeX "NEW") stateXSubmitted
      ∧ pollLoop worldCheckoutFails commitX steps (changeX "NEW") stateXSubmitted
        = .ok (changeAt "MERGED") ⟨stateXSubmitted.trace ++ pollCalls commitX 0 1, 2, "abc123"⟩
      ∧ worldCheckoutFails.b.Pending.length = 1
      ∧ worldCheckoutFails.checkoutErr = some "error: checkout failed"
      ∧ runSubmit worldCheckoutFails
        = .died ⟨cannotSyncFormat, ["work"]⟩
            ⟨stateXSubmitted.trace ++ pollCalls commitX 0 1
              ++ syncCalls worldCheckoutFails (changeAt "MERGED"), 2, "abc123"⟩
      ∧ ¬ ∃ s, runSubmit worldCheckoutFails = .ok () s := by
  have hrun : runSubmit worldCheckoutFails
      = .died ⟨cannotSyncFormat, ["work"]⟩
          ⟨stateXSubmitted.trace ++ pollCalls commitX 0 1
            ++ syncCalls worldCheckoutFails (changeAt "MERGED"), 2, "abc123"⟩ := rfl
  refine ⟨rfl, rfl, rfl, rfl, hrun, ?_⟩
  rintro ⟨s, hs⟩
  rw [hrun] at hs
  cases hs

/-- C7 as amended, at a concrete world: the first poll answers MERGED and the
checkout fails. -/
theorem failed_reset_dies_with_hint_witness :
    (submitExecutor worldCheckoutFails (St.init worldCheckoutFails)
        = .ok (commitX, changeX "NEW") stateXSubmitted
      ∧ pollLoop worldCheckoutFails commitX steps (changeX "NEW") stateXSubmitted
        = .ok (changeAt "MERGED") ⟨stateXSubmitted.trace ++ pollCalls commitX 0 1, 2, "abc123"⟩
      ∧ worldCheckoutFails.fetchErr = none
      ∧ worldCheckoutFails.b.Pending.length = 1
      ∧ worldCheckoutFails.checkoutErr = some "error: checkout failed")
    ∧ runSubmit worldCheckoutFails
        = .died ⟨cannotSyncFormat, ["work"]⟩
            ⟨stateXSubmitted.trace ++ pollCalls commitX 0 1
              ++ syncCalls worldCheckoutFails (changeAt "MERGED"), 2, "abc123"⟩ :=
  ⟨⟨rfl, rfl, rfl, rfl, rfl⟩,
    (failed_reset_dies_with_hint worldCheckoutFails commitX (changeX "NEW") (changeAt "MERGED")
      stateXSubmitted ⟨stateXSubmitted.trace ++ pollCalls commitX 0 1, 2, "abc123"⟩
      "error: checkout failed" rfl rfl rfl rfl rfl rfl).1⟩

/-! ## The sleep durations -/

/-- C11: the six sleep durations of the polling loop, in nanoseconds as line
120 computes them, are 62.5 ms, 125 ms, 250 ms, 500 ms, 1 s and 2 s: strictly
increasing, with a sum below `2 * max` (4 s); they are the sleeps of the six
iterations of the loop, in order. -/
theorem sleeps_increase_and_sum_below_twice_max :
    (List.range steps).map sleepDuration
        = [62500000, 125000000, 250000000, 500000000, 1000000000, 2000000000]
      ∧ List.Pairwise (fun a b => a < b) ((List.range steps).map sleepDuration)
      ∧ ((List.range steps).map sleepDuration).sum < 2 * max
      ∧ 2 * max = 4 * 1000000000
      ∧ ∀ c, (pollCalls c 0 steps).filter Call.isSleep
          = (List.range steps).map (fun i => Call.sleep (sleepDuration i)) :=
  ⟨by decide, by decide, by decide, by decide, fun _ => rfl⟩

/-- C19: for every attempt `i` from 1 to 6, the sleep before attempt `i` is
exactly `max * 2^i / 2^6` with `max` = 2 s: the division is exact and the
product stays below `2^63`; the first sleep is `max / 32` = 62.5 ms, each
sleep is twice the one before, and the sixth is `max`. -/
theorem sleep_is_max_times_power (i : Nat) (h1 : 1 ≤ i) (h6 : i ≤ 6) :
    sleepDuration (i - 1) = max * 2 ^ i / 2 ^ steps
      ∧ 2 ^ steps * sleepDuration (i - 1) = max * 2 ^ i
      ∧ max * 2 ^ i < 2 ^ 63
      ∧ max = 2 * 1000000000
      ∧ sleepDuration 0 = 62500000
      ∧ 32 * sleepDuration 0 = max
      ∧ (i < 6 → sleepDuration i = 2 * sleepDuration (i - 1))
      ∧ sleepDuration 5 = max := by
  have hi : i = 1 ∨ i = 2 ∨ i = 3 ∨ i = 4 ∨ i = 5 ∨ i = 6 := by omega
  rcases hi with rfl | rfl | rfl | rfl | rfl | rfl <;> decide

/-- C19 at the third attempt: the sleep is 250 ms, twice the 125 ms of the
second. -/
theorem sleep_is_max_times_power_witness :
    (1 ≤ 3 ∧ 3 ≤ 6)
    ∧ sleepDuration 2 = 250000000
    ∧ sleepDuration (3 - 1) = max * 2 ^ 3 / 2 ^ steps :=
  ⟨⟨by decide, by decide⟩, by decide,
    (sleep_is_max_times_power 3 (by decide) (by decide)).1⟩

/-! ## Status triage, all cases -/

theorem cmdSubmit_of_fetch {w : World} {c : Commit} {g : GerritChange} {s s1 : St}
    (h : fetchChange w s = .ok (c, g) s1) :
    cmdSubmit w s
      = (checkStatus g >>= fun _ => checkLabels g >>= fun _ => submitChange w c g) s1 := by
  simp only [cmdSubmit, approvalGate, bind_apply, Cmd.bind, h]
  cases checkStatus g s1 with
  | ok a s2 =>
    simp only []
    cases checkLabels g s2 <;> rfl
  | died m s2 => rfl
  | usage s2 => rfl

theorem checkStatus_merged (g : GerritChange) (s : St) (h : g.Status = "MERGED") :
    checkStatus g s
      = .died ⟨"cannot submit: change already submitted, run 'git sync'", []⟩ s := by
  simp [checkStatus, h, dief]

theorem checkStatus_abandoned (g : GerritChange) (s : St) (h : g.Status = "ABANDONED") :
    checkStatus g s = .died ⟨"cannot submit: change abandoned", []⟩ s := by
  simp [checkStatus, h, dief]

theorem checkStatus_other (g : GerritChange) (s : St)
    (h1 : g.Status ≠ "NEW") (h2 : g.Status ≠ "SUBMITTED") (h3 : g.Status ≠ "MERGED")
    (h4 : g.Status ≠ "ABANDONED") :
    checkStatus g s
      = .died ⟨"cannot submit: unexpected Gerrit change status %q", [g.Status]⟩ s := by
  simp [checkStatus, h1, h2, h3, h4, dief]

/-- C14: the switch on the status of the first fetched change covers every
status: the run goes on to the label check exactly for NEW and SUBMITTED; it
dies with the already-submitted message for MERGED, with the abandoned
message for ABANDONED, and with the unexpected-status message carrying the
status for every other string, the empty one included; in each failing case
the trace is the two workspace checks and the fetch, so it has no push and no
submit request. -/
theorem status_triage_total (w : World) (c : Commit) (g : GerritChange) (s1 : St)
    (h : fetchChange w (St.init w) = .ok (c, g) s1) :
    (checkStatus g s1 = .ok () s1 ↔ (g.Status = "NEW" ∨ g.Status = "SUBMITTED"))
      ∧ ((g.Status = "NEW" ∨ g.Status = "SUBMITTED") →
          runSubmit w = (checkLabels g >>= fun _ => submitChange w c g) s1)
      ∧ (g.Status = "MERGED" → runSubmit w
          = .died ⟨"cannot submit: change already submitted, run 'git sync'", []⟩ s1)
      ∧ (g.Status = "ABANDONED" → runSubmit w
          = .died ⟨"cannot submit: change abandoned", []⟩ s1)
      ∧ (g.Status ≠ "NEW" → g.Status ≠ "SUBMITTED" → g.Status ≠ "MERGED" →
          g.Status ≠ "ABANDONED" → runSubmit w
          = .died ⟨"cannot submit: unexpected Gerrit change status %q", [g.Status]⟩ s1)
      ∧ (¬ (g.Status = "NEW" ∨ g.Status = "SUBMITTED") →
          (∃ m, runSubmit w = .died m s1) ∧ s1.trace = fetchCalls c ∧
          ∀ k ∈ (runSubmit w).st.trace, k.isPush = false ∧ k.isSubmit = false) := by
  have hrun : runSubmit w
      = (checkStatus g >>= fun _ => checkLabels g >>= fun _ => submitChange w c g) s1 :=
    cmdSubmit_of_fetch h
  have hs1 : s1.trace = fetchCalls c := by
    rw [(fetchChange_inv h).1]
    simp [St.init]
  have hdied : ∀ m, checkStatus g s1 = .died m s1 → runSubmit w = .died m s1 := by
    intro m hm
    rw [hrun]
    simp only [bind_apply, Cmd.bind, hm]
  refine ⟨⟨fun hok => (checkStatus_inv hok).2, checkStatus_ok s1⟩, ?_, ?_, ?_, ?_, ?_⟩
  · intro hs
    rw [hrun]
    simp only [bind_apply, Cmd.bind, checkStatus_ok s1 hs]
  · exact fun hm => hdied _ (checkStatus_merged g s1 hm)
  · exact fun ha => hdied _ (checkStatus_abandoned g s1 ha)
  · exact fun h1 h2 h3 h4 => hdied _ (checkStatus_other g s1 h1 h2 h3 h4)
  · intro hn
    have hex : ∃ m, runSubmit w = .died m s1 := by
      by_cases hm : g.Status = "MERGED"
      · exact ⟨_, hdied _ (checkStatus_merged g s1 hm)⟩
      · by_cases ha : g.Status = "ABANDONED"
        · exact ⟨_, hdied _ (checkStatus_abandoned g s1 ha)⟩
        · exact ⟨_, hdied _ (checkStatus_other g s1 (fun e => hn (Or.inl e))
            (fun e => hn (Or.inr e)) hm ha)⟩
    refine ⟨hex, hs1, ?_⟩
    obtain ⟨m, hm⟩ := hex
    rw [hm]
    intro k hk
    simp only [Res.st, hs1] at hk
    exact ⟨(mem_fetchCalls hk).1, (mem_fetchCalls hk).2.1⟩

/-- C14 at a concrete world: the first fetch answers with the status DRAFT. -/
theorem status_triage_total_witness :
    fetchChange (worldX [.ok changeDraft]) (St.init (worldX [.ok changeDraft]))
        = .ok (commitX, changeDraft) stateX
    ∧ runSubmit (worldX [.ok changeDraft])
        = .died ⟨"cannot submit: unexpected Gerrit change status %q", ["DRAFT"]⟩ stateX :=
  ⟨rfl,
    (status_triage_total (worldX [.ok changeDraft]) commitX changeDraft stateX rfl).2.2.2.2.1
      (by decide) (by decide) (by decide) (by decide)⟩

/-! ## A fetch that fails while polling -/

/-- The loop dies at the first fetch that fails: after `m` fetches of status
SUBMITTED and one transport error it has made `m + 1` sleeps and fetches. -/
theorem pollLoop_fails (w : World) (c : Commit) (e : String) (m : Nat) :
    ∀ (r : Nat) (g : GerritChange) (s : St), r ≤ steps → m < r →
      (∀ j, j < m → ∃ gj, w.gerritChange (s.fetched + j) = .ok gj ∧ gj.Status = "SUBMITTED") →
      w.gerritChange (s.fetched + m) = .error e →
      pollLoop w c r g s
        = .died ⟨"waiting for merge: %v", [e]⟩
            ⟨s.trace ++ pollCalls c (steps - r) (m + 1), s.fetched + (m + 1),
              s.branchPtr⟩ := by
  induction m with
  | zero =>
    intro r g s _ hr _ herr
    obtain ⟨r, rfl⟩ : ∃ r1, r = r1 + 1 := ⟨r - 1, by omega⟩
    rw [pollLoop_error w c r g s e (by simpa using herr)]
    simp [pollCalls]
  | succ m ih =>
    intro r g s hr6 hr hsub herr
    obtain ⟨r, rfl⟩ : ∃ r1, r = r1 + 1 := ⟨r - 1, by omega⟩
    obtain ⟨g0, hg0, hs0⟩ := hsub 0 (by omega)
    rw [pollLoop_succ w c r g g0 s (by simpa using hg0)]
    simp only [hs0, ne_eq, not_true_eq_false, if_false]
    rw [ih r g0 _ (by omega) (by omega)
      (fun j hj => by
        obtain ⟨gj, h1, h2⟩ := hsub (j + 1) (by omega)
        exact ⟨gj, by rw [← h1]; congr 1; simp only []; omega, h2⟩)
      (by rw [← herr]; congr 1; simp only []; omega)]
    have e1 : steps - r = steps - (r + 1) + 1 := by omega
    simp only [e1, pollCalls, List.append_assoc, List.cons_append, List.nil_append,
      Res.died.injEq, St.mk.injEq, true_and, and_true]
    omega

theorem mergeWait_of_poll_died {w : World} {c : Commit} {g : GerritChange} {s s4 : St}
    {m : Msg} (h : pollLoop w c steps g s = .died m s4) :
    mergeWait w c g s = .died m s4 := by
  simp only [mergeWait, bind_apply, Cmd.bind, h]

/-- C15: in a run that reaches the polling loop, when the fetches before the
k-th one (1 ≤ k ≤ 6) have status SUBMITTED and the k-th fails, the run dies at
once with the waiting-for-merge message carrying the error, after exactly k
sleeps and k fetches: no later answer of the server is asked for, the status
of the fetch before is not reported, and there is no git fetch, no checkout
and no change of the branch pointer. -/
theorem poll_error_is_terminal (w : World) (c : Commit) (g : GerritChange)
    (s3 : St) (k : Nat) (e : String)
    (h : submitExecutor w (St.init w) = .ok (c, g) s3)
    (hk1 : 1 ≤ k) (hk6 : k ≤ 6)
    (hsub : ∀ j, j + 1 < k →
      ∃ gj, w.gerritChange (s3.fetched + j) = .ok gj ∧ gj.Status = "SUBMITTED")
    (herr : w.gerritChange (s3.fetched + (k - 1)) = .error e) :
    runSubmit w
        = .died ⟨"waiting for merge: %v", [e]⟩
            ⟨s3.trace ++ pollCalls c 0 k, s3.fetched + k, w.head⟩
      ∧ (pollCalls c 0 k).countP Call.isChangeFetch = k
      ∧ ∀ call ∈ (runSubmit w).st.trace,
          call.isGitFetch = false ∧ call.isCheckout = false := by
  obtain ⟨m, rfl⟩ : ∃ m, k = m + 1 := ⟨k - 1, by omega⟩
  have hloop := pollLoop_fails w c e m steps g s3 (Nat.le_refl _)
    (by simp only [steps]; omega) (fun j hj => hsub j (by omega)) (by simpa using herr)
  simp only [Nat.sub_self] at hloop
  have hb : s3.branchPtr = w.head := by
    rcases submitExecutor_state h with rfl | rfl <;> rfl
  have hrun : runSubmit w
      = .died ⟨"waiting for merge: %v", [e]⟩
          ⟨s3.trace ++ pollCalls c 0 (m + 1), s3.fetched + (m + 1), w.head⟩ := by
    have h1 : runSubmit w = mergeWait w c g s3 := cmdSubmit_of_submitExecutor h
    rw [h1, mergeWait_of_poll_died hloop, hb]
  refine ⟨hrun, (pollCalls_fetches c (m + 1) 0).1, ?_⟩
  rw [hrun]
  intro k hk
  simp only [Res.st] at hk
  rcases List.mem_append.1 hk with hk | hk
  · exact ⟨(submitExecutor_trace h k hk).1, (submitExecutor_trace h k hk).2.1⟩
  · exact mem_pollCalls (m + 1) 0 hk

/-- C15 at a concrete world: the first poll answers SUBMITTED, the second
fails, and a third would answer MERGED. -/
theorem poll_error_is_terminal_witness :
    (submitExecutor (worldX answersBroken) (St.init (worldX answersBroken))
        = .ok (commitX, changeX "NEW") stateXSubmitted
      ∧ (worldX answersBroken).gerritChange 1 = .ok (changeAt "SUBMITTED")
      ∧ (worldX answersBroken).gerritChange 2 = .error "connection reset"
      ∧ (worldX answersBroken).gerritChange 3 = .ok (changeAt "MERGED"))
    ∧ runSubmit (worldX answersBroken)
        = .died ⟨"waiting for merge: %v", ["connection reset"]⟩
            ⟨stateXSubmitted.trace ++ pollCalls commitX 0 2, 3, "abc123"⟩ :=
  ⟨⟨rfl, rfl, rfl, rfl⟩,
    (poll_error_is_terminal (worldX answersBroken) commitX (changeX "NEW") stateXSubmitted 2
      "connection reset" rfl (by decide) (by decide)
      (fun j hj => by
        have hj2 : j = 0 := by omega
        subst hj2
        exact ⟨changeAt "SUBMITTED", rfl, rfl⟩)
      rfl).1⟩

/-! ## The calls and the branch pointer before the sync of the client -/

theorem Adds.usageExit {α : Type} (P : Call → Prop) : Adds P (usageExit : Cmd α) :=
  fun s => ⟨[], by simp [GitCodereview.usageExit, Res.st], by simp⟩

theorem Adds.checkStaged {P : Call → Prop} (w : World) (h : P .checkStaged) :
    Adds P (checkStaged w) := by
  unfold GitCodereview.checkStaged
  refine Adds.bind (Adds.call h) (fun _ => ?_)
  split
  · exact Adds.dief P _ _
  · exact Adds.pure P _

theorem Adds.checkUnstaged {P : Call → Prop} (w : World) (h : P .checkUnstaged) :
    Adds P (checkUnstaged w) := by
  unfold GitCodereview.checkUnstaged
  refine Adds.bind (Adds.call h) (fun _ => ?_)
  split
  · exact Adds.dief P _ _
  · exact Adds.pure P _

theorem Adds.fetchChange {P : Call → Prop} (w : World) (h1 : P .checkStaged)
    (h2 : P .checkUnstaged) (h3 : ∀ c, P (changeCall c)) : Adds P (fetchChange w) := by
  unfold GitCodereview.fetchChange
  split
  · exact Adds.usageExit P
  · split
    · exact Adds.dief P _ _
    · refine Adds.bind (Adds.checkStaged w h1) (fun _ => ?_)
      refine Adds.bind (Adds.checkUnstaged w h2) (fun _ => ?_)
      refine Adds.bind (Adds.gerritChange w _ (h3 _)) (fun r => ?_)
      cases r
      · exact Adds.dief P _ _
      · exact Adds.pure P _

theorem Adds.checkStatus (P : Call → Prop) (g : GerritChange) : Adds P (checkStatus g) := by
  unfold GitCodereview.checkStatus
  split
  · exact Adds.pure P _
  · split
    · exact Adds.dief P _ _
    · split
      · exact Adds.dief P _ _
      · exact Adds.dief P _ _

theorem Adds.checkLabels (P : Call → Prop) (g : GerritChange) : Adds P (checkLabels g) := by
  intro s
  refine ⟨[], ?_, by simp⟩
  rcases checkLabelsFrom_cases g g.LabelNames s with h | ⟨_, _, h | h⟩ <;>
    simp [GitCodereview.checkLabels, h, Res.st]

theorem Adds.approvalGate {P : Call → Prop} (w : World) (h1 : P .checkStaged)
    (h2 : P .checkUnstaged) (h3 : ∀ c, P (changeCall c)) : Adds P (approvalGate w) := by
  unfold GitCodereview.approvalGate
  refine Adds.bind (Adds.fetchChange w h1 h2 h3) (fun p => ?_)
  refine Adds.bind (Adds.checkStatus P _) (fun _ => ?_)
  exact Adds.bind (Adds.checkLabels P _) (fun _ => Adds.pure P _)

theorem Adds.upload {P : Call → Prop} (w : World) (c : Commit) (g : GerritChange)
    (h3 : P (changeCall c)) (h4 : P (pushCall w c)) : Adds P (upload w c g) := by
  unfold GitCodereview.upload
  split
  · refine Adds.bind (Adds.run _ _ _ h4) (fun _ => ?_)
    refine Adds.bind (Adds.gerritChange w c h3) (fun r => ?_)
    cases r
    · exact Adds.dief P _ _
    · exact Adds.pure P _
  · exact Adds.pure P _

theorem Adds.uploadStep {P : Call → Prop} (w : World) (h1 : P .checkStaged)
    (h2 : P .checkUnstaged) (h3 : ∀ c, P (changeCall c)) (h4 : ∀ c, P (pushCall w c)) :
    Adds P (uploadStep w) := by
  unfold GitCodereview.uploadStep
  refine Adds.bind (Adds.approvalGate w h1 h2 h3) (fun p => ?_)
  exact Adds.bind (Adds.upload w _ _ (h3 _) (h4 _)) (fun _ => Adds.pure P _)

theorem Adds.submitExecutor {P : Call → Prop} (w : World) (h1 : P .checkStaged)
    (h2 : P .checkUnstaged) (h3 : ∀ c, P (changeCall c)) (h4 : ∀ c, P (pushCall w c))
    (h5 : ∀ c, P (submitCall w c)) : Adds P (submitExecutor w) := by
  unfold GitCodereview.submitExecutor
  refine Adds.bind (Adds.uploadStep w h1 h2 h3 h4) (fun p => ?_)
  refine Adds.bind (Adds.checkMergeable P w _) (fun _ => ?_)
  exact Adds.bind (Adds.submit w _ (h5 _)) (fun _ => Adds.pure P _)

theorem Adds.confirmMerged {P : Call → Prop} (w : World) (h1 : P .checkStaged)
    (h2 : P .checkUnstaged) (h3 : ∀ c, P (changeCall c)) (h4 : ∀ c, P (pushCall w c))
    (h5 : ∀ c, P (submitCall w c)) (h6 : ∀ d, P (.sleep d)) :
    Adds P (confirmMerged w) := by
  unfold GitCodereview.confirmMerged
  refine Adds.bind (Adds.submitExecutor w h1 h2 h3 h4 h5) (fun p => ?_)
  refine Adds.bind (Adds.pollLoop w _ h6 (h3 _) _ _) (fun g1 => ?_)
  exact Adds.bind (Adds.checkPostStatus P g1) (fun _ => Adds.pure P _)

theorem keepsBranch_pure {α : Type} (a : α) : KeepsBranch (pure a : Cmd α) :=
  fun _ => rfl

theorem keepsBranch_dief {α : Type} (f : String) (args : List String) :
    KeepsBranch (dief f args : Cmd α) :=
  fun _ => rfl

theorem keepsBranch_usageExit {α : Type} : KeepsBranch (usageExit : Cmd α) :=
  fun _ => rfl

theorem keepsBranch_call (k : Call) : KeepsBranch (call k) :=
  fun _ => rfl

theorem keepsBranch_gerritChange (w : World) (c : Commit) : KeepsBranch (gerritChange w c) :=
  fun _ => rfl

theorem keepsBranch_bind {α β : Type} {m : Cmd α} {f : α → Cmd β}
    (hm : KeepsBranch m) (hf : ∀ a, KeepsBranch (f a)) : KeepsBranch (m >>= f) := by
  intro s
  have h1 := hm s
  cases hms : m s with
  | ok a s1 =>
    rw [hms] at h1
    simp only [bind_apply, Cmd.bind, hms]
    rw [hf a s1]
    exact h1
  | died e s1 =>
    rw [hms] at h1
    simpa only [bind_apply, Cmd.bind, hms] using h1
  | usage s1 =>
    rw [hms] at h1
    simpa only [bind_apply, Cmd.bind, hms] using h1

theorem keepsBranch_run (cmd : String) (args : List String) (err : Option String) :
    KeepsBranch (run cmd args err) := by
  unfold GitCodereview.run GitCodereview.runErr
  refine keepsBranch_bind (keepsBranch_bind (keepsBranch_call _) (fun _ => keepsBranch_pure _))
    (fun r => ?_)
  cases r
  · exact keepsBranch_pure _
  · exact keepsBranch_dief _ _

theorem keepsBranch_fetchChange (w : World) : KeepsBranch (fetchChange w) := by
  unfold GitCodereview.fetchChange
  split
  · exact keepsBranch_usageExit
  · split
    · exact keepsBranch_dief _ _
    · refine keepsBranch_bind ?_ (fun _ => keepsBranch_bind ?_ (fun _ => ?_))
      · unfold GitCodereview.checkStaged
        refine keepsBranch_bind (keepsBranch_call _) (fun _ => ?_)
        split
        · exact keepsBranch_dief _ _
        · exact keepsBranch_pure _
      · unfold GitCodereview.checkUnstaged
        refine keepsBranch_bind (keepsBranch_call _) (fun _ => ?_)
        split
        · exact keepsBranch_dief _ _
        · exact keepsBranch_pure _
      · refine keepsBranch_bind (keepsBranch_gerritChange w _) (fun r => ?_)
        cases r
        · exact keepsBranch_dief _ _
        · exact keepsBranch_pure _

theorem keepsBranch_checkStatus (g : GerritChange) : KeepsBranch (checkStatus g) := by
  unfold GitCodereview.checkStatus
  split
  · exact keepsBranch_pure _
  · split
    · exact keepsBranch_dief _ _
    · split
      · exact keepsBranch_dief _ _
      · exact keepsBranch_dief _ _

theorem keepsBranch_checkLabels (g : GerritChange) : KeepsBranch (checkLabels g) := by
  intro s
  rcases checkLabelsFrom_cases g g.LabelNames s with h | ⟨_, _, h | h⟩ <;>
    simp [GitCodereview.checkLabels, h, Res.st]

theorem keepsBranch_upload (w : World) (c : Commit) (g : GerritChange) :
    KeepsBranch (upload w c g) := by
  unfold GitCodereview.upload
  split
  · refine keepsBranch_bind (keepsBranch_run _ _ _) (fun _ => ?_)
    refine keepsBranch_bind (keepsBranch_gerritChange w c) (fun r => ?_)
    cases r
    · exact keepsBranch_dief _ _
    · exact keepsBranch_pure _
  · exact keepsBranch_pure _

theorem keepsBranch_uploadStep (w : World) : KeepsBranch (uploadStep w) := by
  unfold GitCodereview.uploadStep GitCodereview.approvalGate
  refine keepsBranch_bind ?_ (fun p => ?_)
  · refine keepsBranch_bind (keepsBranch_fetchChange w) (fun p => ?_)
    refine keepsBranch_bind (keepsBranch_checkStatus _) (fun _ => ?_)
    exact keepsBranch_bind (keepsBranch_checkLabels _) (fun _ => keepsBranch_pure _)
  · exact keepsBranch_bind (keepsBranch_upload w _ _) (fun _ => keepsBranch_pure _)

theorem keepsBranch_checkMergeable (w : World) (g : GerritChange) :
    KeepsBranch (checkMergeable w g) := by
  unfold GitCodereview.checkMergeable
  split
  · exact keepsBranch_dief _ _
  · split
    · exact keepsBranch_dief _ _
    · exact keepsBranch_pure _

theorem keepsBranch_submit (w : World) (c : Commit) : KeepsBranch (submit w c) := by
  unfold GitCodereview.submit GitCodereview.gerritAPI
  refine keepsBranch_bind (keepsBranch_bind (keepsBranch_call _) (fun _ => keepsBranch_pure _))
    (fun r => ?_)
  cases r
  · exact keepsBranch_pure _
  · exact keepsBranch_dief _ _

theorem keepsBranch_submitExecutor (w : World) : KeepsBranch (submitExecutor w) := by
  unfold GitCodereview.submitExecutor
  refine keepsBranch_bind (keepsBranch_uploadStep w) (fun p => ?_)
  refine keepsBranch_bind (keepsBranch_checkMergeable w _) (fun _ => ?_)
  exact keepsBranch_bind (keepsBranch_submit w _) (fun _ => keepsBranch_pure _)

theorem keepsBranch_pollLoop (w : World) (c : Commit) (n : Nat) (g : GerritChange) :
    KeepsBranch (pollLoop w c n g) := by
  induction n generalizing g with
  | zero => exact keepsBranch_pure g
  | succ n ih =>
    unfold GitCodereview.pollLoop
    refine keepsBranch_bind (keepsBranch_call _) (fun _ => ?_)
    refine keepsBranch_bind (keepsBranch_gerritChange w c) (fun r => ?_)
    cases r with
    | error e => exact keepsBranch_dief _ _
    | ok g1 =>
      show KeepsBranch (if g1.Status ≠ "SUBMITTED" then _ else _)
      split
      · exact keepsBranch_pure g1
      · exact ih g1

theorem keepsBranch_checkPostStatus (g : GerritChange) : KeepsBranch (checkPostStatus g) := by
  unfold GitCodereview.checkPostStatus
  split
  · exact keepsBranch_pure _
  · split
    · exact keepsBranch_dief _ _
    · exact keepsBranch_dief _ _

theorem keepsBranch_confirmMerged (w : World) : KeepsBranch (confirmMerged w) := by
  unfold GitCodereview.confirmMerged
  refine keepsBranch_bind (keepsBranch_submitExecutor w) (fun p => ?_)
  refine keepsBranch_bind (keepsBranch_pollLoop w _ _ _) (fun g1 => ?_)
  exact keepsBranch_bind (keepsBranch_checkPostStatus g1) (fun _ => keepsBranch_pure _)

/-! ## The run as a prefix followed by the rest -/

theorem cmdSubmit_eq_uploadStep (w : World) (s : St) :
    cmdSubmit w s = Cmd.bind (uploadStep w) (fun p => afterUpload w p.1 p.2) s := by
  cases ha : approvalGate w s with
  | ok p s1 =>
    obtain ⟨c, g⟩ := p
    cases hu : upload w c g s1 <;>
      simp only [cmdSubmit, uploadStep, submitChange, bind_apply, Cmd.bind, ha, hu, pure_apply]
  | died m s1 => simp only [cmdSubmit, uploadStep, bind_apply, Cmd.bind, ha]
  | usage s1 => simp only [cmdSubmit, uploadStep, bind_apply, Cmd.bind, ha]

theorem cmdSubmit_eq_submitExecutor (w : World) (s : St) :
    cmdSubmit w s = Cmd.bind (submitExecutor w) (fun p => mergeWait w p.1 p.2) s := by
  rw [cmdSubmit_eq_uploadStep]
  cases hu : uploadStep w s with
  | ok p s2 =>
    obtain ⟨c, g⟩ := p
    cases hm : checkMergeable w g s2 with
    | ok u s2a =>
      cases hs : submit w c s2a <;>
        simp only [submitExecutor, afterUpload, bind_apply, Cmd.bind, hu, hm, hs, pure_apply]
    | died m s2a =>
      simp only [submitExecutor, afterUpload, bind_apply, Cmd.bind, hu, hm]
    | usage s2a =>
      simp only [submitExecutor, afterUpload, bind_apply, Cmd.bind, hu, hm]
  | died m s2 => simp only [submitExecutor, bind_apply, Cmd.bind, hu]
  | usage s2 => simp only [submitExecutor, bind_apply, Cmd.bind, hu]

theorem cmdSubmit_eq_confirmMerged (w : World) (s : St) :
    cmdSubmit w s = Cmd.bind (confirmMerged w) (fun p => reconcile w p.2) s := by
  rw [cmdSubmit_eq_submitExecutor]
  cases he : submitExecutor w s with
  | ok p s3 =>
    obtain ⟨c, g⟩ := p
    cases hp : pollLoop w c steps g s3 with
    | ok g1 s4 =>
      cases hc : checkPostStatus g1 s4 <;>
        simp only [confirmMerged, mergeWait, bind_apply, Cmd.bind, he, hp, hc, pure_apply]
    | died m s4 =>
      simp only [confirmMerged, mergeWait, bind_apply, Cmd.bind, he, hp]
    | usage s4 =>
      simp only [confirmMerged, mergeWait, bind_apply, Cmd.bind, he, hp]
  | died m s3 => simp only [confirmMerged, bind_apply, Cmd.bind, he]
  | usage s3 => simp only [confirmMerged, bind_apply, Cmd.bind, he]

theorem confirmMerged_inv {w : World} {c : Commit} {gm : GerritChange} {s s4 : St}
    (h : confirmMerged w s = .ok (c, gm) s4) :
    ∃ g s3, submitExecutor w s = .ok (c, g) s3 ∧ pollLoop w c steps g s3 = .ok gm s4 ∧
      gm.Status = "MERGED" := by
  simp only [confirmMerged, bind_apply] at h
  obtain ⟨⟨c0, g0⟩, s3, he, h1⟩ := bind_ok_inv h
  simp only [bind_apply] at h1
  obtain ⟨g1, sa, hp, h2⟩ := bind_ok_inv h1
  simp only [bind_apply] at h2
  obtain ⟨_, sb, hc, h3⟩ := bind_ok_inv h2
  simp only [pure_apply, Res.ok.injEq, Prod.mk.injEq] at h3
  obtain ⟨⟨rfl, rfl⟩, rfl⟩ := h3
  have hm : g1.Status = "MERGED" := by
    by_contra hne
    by_cases hsub : g1.Status = "SUBMITTED"
    · rw [checkPostStatus_submitted g1 sa hsub] at hc; cases hc
    · rw [checkPostStatus_other g1 sa hne hsub] at hc; cases hc
  rw [checkPostStatus_merged g1 sa hm] at hc
  cases hc
  exact ⟨g0, s3, he, hp, hm⟩

theorem Adds.from_init {α : Type} {P : Call → Prop} {m : Cmd α} (h : Adds P m) (w : World) :
    ∀ k ∈ (m (St.init w)).st.trace, P k := by
  obtain ⟨ext, he, hp⟩ := h (St.init w)
  rw [he]
  simpa [St.init] using hp

theorem reconcile_died_format {w : World} {g : GerritChange} {s s1 : St} {m : Msg}
    (h : reconcile w g s = .died m s1) : m.format = "%v" ∨ m.format = cannotSyncFormat := by
  cases hf : w.fetchErr with
  | some e =>
    simp [reconcile, run, runErr, Cmd.bind, call, hf, dief, Cmd.pure] at h
    exact Or.inl (by rw [← h.1])
  | none =>
    by_cases h1 : w.b.Pending.length = 1
    · cases hc : w.checkoutErr with
      | some e =>
        simp [reconcile, run, runErr, Cmd.bind, call, hf, h1, hc, dief, Cmd.pure] at h
        exact Or.inr (by rw [← h.1])
      | none =>
        simp [reconcile, run, runErr, Cmd.bind, call, hf, h1, hc, dief, Cmd.pure,
          setBranch] at h
    · simp [reconcile, run, runErr, Cmd.bind, call, hf, h1, dief, Cmd.pure, printf] at h

/-! ## No change of the local branch before MERGED -/

/-- C13: every run either reaches the sync of the client, after a poll fetch
that returned status MERGED, or ends with the branch pointer at its initial
value and with no git fetch and no checkout in its trace; in particular a
run that dies with one of the errors raised before the sync (unexpected
status, already submitted, abandoned, rejection, missing approval, not
mergeable, submit rejected, poll error, timeout, unexpected post-submit
status) leaves the branch pointer alone and has made no checkout. -/
theorem branch_untouched_before_merged (w : World) :
    ((∃ c g s3 gm s4, submitExecutor w (St.init w) = .ok (c, g) s3 ∧
          pollLoop w c steps g s3 = .ok gm s4 ∧ gm.Status = "MERGED" ∧
          runSubmit w = reconcile w gm s4)
        ∨ ((runSubmit w).st.branchPtr = w.head ∧
            ∀ k ∈ (runSubmit w).st.trace, k.isGitFetch = false ∧ k.isCheckout = false))
      ∧ ∀ m s, runSubmit w = .died m s → m.format ∈ earlyFormats →
          s.branchPtr = w.head ∧
            ∀ k ∈ s.trace, k.isGitFetch = false ∧ k.isCheckout = false := by
  have hrun : runSubmit w = Cmd.bind (confirmMerged w) (fun p => reconcile w p.2) (St.init w) :=
    cmdSubmit_eq_confirmMerged w (St.init w)
  have hkeep := keepsBranch_confirmMerged w (St.init w)
  have hadds : ∀ k ∈ (confirmMerged w (St.init w)).st.trace,
      k.isGitFetch = false ∧ k.isCheckout = false :=
    Adds.from_init (Adds.confirmMerged w ⟨rfl, rfl⟩ ⟨rfl, rfl⟩ (fun _ => ⟨rfl, rfl⟩)
      (fun _ => ⟨rfl, rfl⟩) (fun _ => ⟨rfl, rfl⟩) (fun _ => ⟨rfl, rfl⟩)) w
  cases hc : confirmMerged w (St.init w) with
  | ok p s4 =>
    obtain ⟨c, gm⟩ := p
    obtain ⟨g, s3, he, hp, hm⟩ := confirmMerged_inv hc
    have hrec : runSubmit w = reconcile w gm s4 := by
      rw [hrun]; simp only [Cmd.bind, hc]
    refine ⟨Or.inl ⟨c, g, s3, gm, s4, he, hp, hm, hrec⟩, ?_⟩
    intro m s hd hfmt
    rw [hrec] at hd
    rcases reconcile_died_format hd with hf | hf
    · rw [hf] at hfmt
      exact absurd hfmt (by decide)
    · rw [hf] at hfmt
      exact absurd hfmt (by decide)
  | died m0 s0 =>
    rw [hc] at hkeep hadds
    have hd : runSubmit w = .died m0 s0 := by
      rw [hrun]; simp only [Cmd.bind, hc]
    have hgood : (runSubmit w).st.branchPtr = w.head ∧
        ∀ k ∈ (runSubmit w).st.trace, k.isGitFetch = false ∧ k.isCheckout = false := by
      rw [hd]; exact ⟨hkeep, hadds⟩
    refine ⟨Or.inr hgood, ?_⟩
    intro m s hms _
    rw [hms] at hgood
    exact hgood
  | usage s0 =>
    rw [hc] at hkeep hadds
    have hd : runSubmit w = .usage s0 := by
      rw [hrun]; simp only [Cmd.bind, hc]
    have hgood : (runSubmit w).st.branchPtr = w.head ∧
        ∀ k ∈ (runSubmit w).st.trace, k.isGitFetch = false ∧ k.isCheckout = false := by
      rw [hd]; exact ⟨hkeep, hadds⟩
    refine ⟨Or.inr hgood, ?_⟩
    intro m s hms _
    rw [hms] at hgood
    exact hgood

/-- C13 at a concrete world: the second poll fails; the branch pointer is the
initial one and the trace has no git fetch and no checkout. -/
theorem branch_untouched_before_merged_witness :
    runSubmit (worldX answersBroken)
        = .died ⟨"waiting for merge: %v", ["connection reset"]⟩
            ⟨stateXSubmitted.trace ++ pollCalls commitX 0 2, 3, "abc123"⟩
    ∧ (worldX answersBroken).head = "abc123"
    ∧ ∀ k ∈ stateXSubmitted.trace ++ pollCalls commitX 0 2,
        k.isGitFetch = false ∧ k.isCheckout = false :=
  ⟨by decide, rfl,
    ((branch_untouched_before_merged (worldX answersBroken)).2
      ⟨"waiting for merge: %v", ["connection reset"]⟩
      ⟨stateXSubmitted.trace ++ pollCalls commitX 0 2, 3, "abc123"⟩ (by decide)
      (by decide)).2⟩

/-! ## The submit request -/

theorem afterUpload_noRun (w : World) (c : Commit) (g : GerritChange) (s : St)
    (hm : g.Mergeable = true) (hn : w.noRun = true) :
    afterUpload w c g s = .died ⟨"stopped before submit", []⟩ s := by
  simp [afterUpload, Cmd.bind, checkMergeable, hm, hn, dief]

theorem filter_eq_nil_of_forall {P : Call → Bool} {l : List Call}
    (h : ∀ k ∈ l, P k = false) : l.filter P = [] := by
  rw [List.filter_eq_nil_iff]
  intro k hk
  simp [h k hk]

theorem filter_submit_single {t ext : List Call} (w : World) (c : Commit)
    (ht : ∀ k ∈ t, k.isSubmit = false) (he : ∀ k ∈ ext, k.isSubmit = false) :
    (t ++ [submitCall w c] ++ ext).filter Call.isSubmit = [submitCall w c] := by
  rw [List.filter_append, List.filter_append, filter_eq_nil_of_forall ht,
    filter_eq_nil_of_forall he]
  rfl

/-- No call made from the polling loop on is a submit request. -/
theorem mergeWait_no_submit (w : World) (c : Commit) (g : GerritChange) :
    Adds (fun k => k.isSubmit = false) (mergeWait w c g) :=
  Adds.mergeWait w c g (fun _ => rfl) rfl rfl (fun _ => rfl) rfl

/-- C16: the trace of every run has no submit request or exactly one, the
request of line 107 with the body that asks to wait for the merge; and when
the run reaches that request and the request fails, the run dies with the
cannot-submit message carrying the error, the request being the last call:
no second request, no sleep or poll fetch, no git fetch and no checkout. -/
theorem at_most_one_submit_request (w : World) :
    ((runSubmit w).st.trace.filter Call.isSubmit = [] ∨
        ∃ c, (runSubmit w).st.trace.filter Call.isSubmit = [submitCall w c])
      ∧ ∀ c g s2 e, uploadStep w (St.init w) = .ok (c, g) s2 → g.Mergeable = true →
          w.noRun = false → w.submitErr = some e →
          runSubmit w
              = .died ⟨"cannot submit: %v", [e]⟩
                  ⟨s2.trace ++ [submitCall w c], s2.fetched, w.head⟩
            ∧ (s2.trace ++ [submitCall w c]).filter Call.isSubmit = [submitCall w c]
            ∧ ∀ k ∈ s2.trace ++ [submitCall w c],
                k.isSleep = false ∧ k.isGitFetch = false ∧ k.isCheckout = false := by
  have hrun : runSubmit w
      = Cmd.bind (uploadStep w) (fun p => afterUpload w p.1 p.2) (St.init w) :=
    cmdSubmit_eq_uploadStep w (St.init w)
  have hadds : Adds (fun k => k.isSubmit = false) (uploadStep w) :=
    Adds.uploadStep w rfl rfl (fun _ => rfl) (fun _ => rfl)
  have hno : ∀ k ∈ (uploadStep w (St.init w)).st.trace, k.isSubmit = false :=
    Adds.from_init hadds w
  constructor
  · cases hu : uploadStep w (St.init w) with
    | died m s =>
      rw [hu] at hno
      left
      rw [hrun]
      simp only [Cmd.bind, hu, Res.st]
      exact filter_eq_nil_of_forall hno
    | usage s =>
      rw [hu] at hno
      left
      rw [hrun]
      simp only [Cmd.bind, hu, Res.st]
      exact filter_eq_nil_of_forall hno
    | ok p s2 =>
      obtain ⟨c, g⟩ := p
      rw [hu] at hno
      simp only [Res.st] at hno
      have hafter : runSubmit w = afterUpload w c g s2 := by
        rw [hrun]; simp only [Cmd.bind, hu]
      cases hm : g.Mergeable with
      | false =>
        left
        rw [hafter, afterUpload_not_mergeable w c g s2 hm]
        exact filter_eq_nil_of_forall hno
      | true =>
        cases hn : w.noRun with
        | true =>
          left
          rw [hafter, afterUpload_noRun w c g s2 hm hn]
          exact filter_eq_nil_of_forall hno
        | false =>
          right
          refine ⟨c, ?_⟩
          rw [hafter, afterUpload_mergeable w c g s2 hm hn]
          cases he : w.submitErr with
          | some e =>
            simp only [bind_apply, Cmd.bind, submit_failed w c s2 e he, Res.st]
            have := @filter_submit_single s2.trace [] w c hno (by simp)
            simpa using this
          | none =>
            simp only [bind_apply, Cmd.bind, submit_ok w c s2 he]
            obtain ⟨ext, hext, hp⟩ := mergeWait_no_submit w c g
              ⟨s2.trace ++ [submitCall w c], s2.fetched, s2.branchPtr⟩
            rw [hext]
            exact filter_submit_single w c hno hp
  · intro c g s2 e hu hm hn he
    have hafter : runSubmit w = afterUpload w c g s2 := by
      rw [hrun]; simp only [Cmd.bind, hu]
    rw [hu] at hno
    simp only [Res.st] at hno
    have hb : s2.branchPtr = w.head := by
      rcases uploadStep_state hu with rfl | rfl <;> rfl
    refine ⟨?_, ?_, ?_⟩
    · rw [hafter, afterUpload_mergeable w c g s2 hm hn]
      simp only [bind_apply, Cmd.bind, submit_failed w c s2 e he, hb]
    · have := @filter_submit_single s2.trace [] w c hno (by simp)
      simpa using this
    · intro k hk
      rcases List.mem_append.1 hk with hk | hk
      · rcases uploadStep_state hu with rfl | rfl
        · have := mem_fetchCalls hk
          exact ⟨this.2.2.2.1, this.2.2.2.2, this.2.2.1⟩
        · rcases List.mem_append.1 hk with hk | hk
          · have := mem_fetchCalls hk
            exact ⟨this.2.2.2.1, this.2.2.2.2, this.2.2.1⟩
          · simp at hk
            rcases hk with rfl | rfl <;> exact ⟨rfl, rfl, rfl⟩
      · simp at hk
        subst hk
        exact ⟨rfl, rfl, rfl⟩

/-- C16 at a concrete world: the server refuses the submit request. -/
theorem at_most_one_submit_request_witness :
    (uploadStep worldSubmitRefused (St.init worldSubmitRefused)
        = .ok (commitX, changeX "NEW") stateX
      ∧ worldSubmitRefused.submitErr = some "409 Conflict")
    ∧ runSubmit worldSubmitRefused
        = .died ⟨"cannot submit: %v", ["409 Conflict"]⟩
            ⟨stateX.trace ++ [submitCall worldSubmitRefused commitX], 1, "abc123"⟩ :=
  ⟨⟨rfl, rfl⟩,
    ((at_most_one_submit_request worldSubmitRefused).2 commitX (changeX "NEW") stateX
      "409 Conflict" rfl rfl rfl rfl).1⟩

/-! ## The dry run -/

/-- C20: a run with the `noRun` flag set makes no submit request, no sleep
(so no poll), no git fetch and no checkout, leaves the branch pointer alone
and never returns normally: when it reaches the mergeability check with a
mergeable change it dies with "stopped before submit", with a change that is
not mergeable it dies with the not-mergeable message, and when an earlier
step ends the run it ends as that step does. -/
theorem dry_run_stops_before_submit (w : World) (hn : w.noRun = true) :
    (∀ k ∈ (runSubmit w).st.trace,
        k.isSubmit = false ∧ k.isSleep = false ∧ k.isGitFetch = false ∧ k.isCheckout = false)
      ∧ (runSubmit w).st.branchPtr = w.head
      ∧ (∀ s, runSubmit w ≠ .ok () s)
      ∧ (∀ c g s2, uploadStep w (St.init w) = .ok (c, g) s2 →
          (g.Mergeable = true → runSubmit w = .died ⟨"stopped before submit", []⟩ s2) ∧
          (g.Mergeable = false → runSubmit w
            = .died ⟨"cannot submit: conflicting changes submitted, run 'git sync'", []⟩ s2))
      ∧ (∀ m s, uploadStep w (St.init w) = .died m s → runSubmit w = .died m s)
      ∧ (∀ s, uploadStep w (St.init w) = .usage s → runSubmit w = .usage s) := by
  have hrun : runSubmit w
      = Cmd.bind (uploadStep w) (fun p => afterUpload w p.1 p.2) (St.init w) :=
    cmdSubmit_eq_uploadStep w (St.init w)
  have hadds : Adds (fun k => k.isSubmit = false ∧ k.isSleep = false ∧ k.isGitFetch = false ∧
      k.isCheckout = false) (uploadStep w) :=
    Adds.uploadStep w ⟨rfl, rfl, rfl, rfl⟩ ⟨rfl, rfl, rfl, rfl⟩
      (fun _ => ⟨rfl, rfl, rfl, rfl⟩) (fun _ => ⟨rfl, rfl, rfl, rfl⟩)
  have hno : ∀ k ∈ (uploadStep w (St.init w)).st.trace,
      k.isSubmit = false ∧ k.isSleep = false ∧ k.isGitFetch = false ∧ k.isCheckout = false :=
    Adds.from_init hadds w
  have hkeep := keepsBranch_uploadStep w (St.init w)
  have hok : ∀ c g s2, uploadStep w (St.init w) = .ok (c, g) s2 →
      (g.Mergeable = true → runSubmit w = .died ⟨"stopped before submit", []⟩ s2) ∧
      (g.Mergeable = false → runSubmit w
        = .died ⟨"cannot submit: conflicting changes submitted, run 'git sync'", []⟩ s2) := by
    intro c g s2 hu
    have hafter : runSubmit w = afterUpload w c g s2 := by
      rw [hrun]; simp only [Cmd.bind, hu]
    exact ⟨fun hm => by rw [hafter, afterUpload_noRun w c g s2 hm hn],
      fun hm => by rw [hafter, afterUpload_not_mergeable w c g s2 hm]⟩
  have hdied : ∀ m s, uploadStep w (St.init w) = .died m s → runSubmit w = .died m s := by
    intro m s hu
    rw [hrun]; simp only [Cmd.bind, hu]
  have husage : ∀ s, uploadStep w (St.init w) = .usage s → runSubmit w = .usage s := by
    intro s hu
    rw [hrun]; simp only [Cmd.bind, hu]
  have hst : (runSubmit w).st = (uploadStep w (St.init w)).st ∧ ∀ s, runSubmit w ≠ .ok () s := by
    cases hu : uploadStep w (St.init w) with
    | ok p s2 =>
      obtain ⟨c, g⟩ := p
      cases hm : g.Mergeable with
      | true => rw [(hok c g s2 hu).1 hm]; exact ⟨rfl, fun s h => by cases h⟩
      | false => rw [(hok c g s2 hu).2 hm]; exact ⟨rfl, fun s h => by cases h⟩
    | died m s => rw [hdied m s hu]; exact ⟨rfl, fun s h => by cases h⟩
    | usage s => rw [husage s hu]; exact ⟨rfl, fun s h => by cases h⟩
  refine ⟨?_, ?_, hst.2, hok, hdied, husage⟩
  · rw [hst.1]; exact hno
  · rw [hst.1]; exact hkeep

/-- C20 at a concrete world: a dry run of a change that is ready to submit. -/
theorem dry_run_stops_before_submit_witness :
    (worldDryRun.noRun = true
      ∧ uploadStep worldDryRun (St.init worldDryRun) = .ok (commitX, changeX "NEW") stateX)
    ∧ runSubmit worldDryRun = .died ⟨"stopped before submit", []⟩ stateX :=
  ⟨⟨rfl, rfl⟩,
    ((dry_run_stops_before_submit worldDryRun rfl).2.2.2.1 commitX (changeX "NEW") stateX
      rfl).1 rfl⟩

/-! ## The sync of the client, all cases -/

theorem reconcile_reset_ok (w : World) (g : GerritChange) (s : St)
    (hf : w.fetchErr = none) (h1 : w.b.Pending.length = 1) (hc : w.checkoutErr = none) :
    reconcile w g s = .ok () ⟨s.trace ++ syncCalls w g, s.fetched, g.CurrentRevision⟩ := by
  simp [reconcile, run, runErr, Cmd.bind, call, hf, h1, hc, Cmd.pure, syncCalls, setBranch]

theorem reconcile_deferred (w : World) (g : GerritChange) (s : St)
    (hf : w.fetchErr = none) (h1 : w.b.Pending.length ≠ 1) :
    reconcile w g s = .ok () ⟨s.trace ++ deferCalls, s.fetched, s.branchPtr⟩ := by
  simp [reconcile, run, runErr, Cmd.bind, call, hf, h1, Cmd.pure, deferCalls, printf]

theorem reconcile_fetch_failed (w : World) (g : GerritChange) (s : St) (e : String)
    (hf : w.fetchErr = some e) :
    reconcile w g s
      = .died ⟨"%v", [e]⟩ ⟨s.trace ++ [.exec "git" ["fetch", "-q"]], s.fetched, s.branchPtr⟩ := by
  simp [reconcile, run, runErr, Cmd.bind, call, hf, Cmd.pure, dief]

theorem runSubmit_of_merged {w : World} {c : Commit} {g gm : GerritChange} {s3 s4 : St}
    (h : submitExecutor w (St.init w) = .ok (c, g) s3)
    (hp : pollLoop w c steps g s3 = .ok gm s4) (hm : gm.Status = "MERGED") :
    runSubmit w = reconcile w gm s4 := by
  have hrun : runSubmit w = mergeWait w c g s3 := cmdSubmit_of_submitExecutor h
  rw [hrun, mergeWait_of_poll hp]
  simp only [bind_apply, Cmd.bind, checkPostStatus_merged gm s4 hm]

theorem pollLoop_no_checkout {w : World} {c : Commit} {g gm : GerritChange} {s3 s4 : St}
    (h : submitExecutor w (St.init w) = .ok (c, g) s3)
    (hp : pollLoop w c steps g s3 = .ok gm s4) :
    s4.branchPtr = w.head ∧ ∀ k ∈ s4.trace, k.isCheckout = false := by
  constructor
  · rw [pollLoop_branchPtr w c steps g gm s3 s4 hp]
    rcases submitExecutor_state h with rfl | rfl <;> rfl
  · have hadds : Adds (fun k => k.isCheckout = false) (pollLoop w c steps g) :=
      @Adds.pollLoop (fun k => k.isCheckout = false) w c (fun _ => rfl) rfl steps g
    obtain ⟨ext, he, hx⟩ := hadds s3
    rw [hp] at he
    simp only [Res.st] at he
    rw [he]
    intro k hk
    rcases List.mem_append.1 hk with hk | hk
    · exact (submitExecutor_trace h k hk).2.1
    · exact hx k hk

/-- C12, as the code has it: after a poll has returned status MERGED (the branch pointer is
still the initial one then), when the git fetch succeeds, the branch has
exactly one pending commit and the checkout succeeds, the run returns with
the branch pointer at the current revision of the merged change; when the
branch has two or more pending commits no checkout is made and the branch
pointer is unchanged, and with a successful git fetch the run prints the
deferral message and returns. -/
theorem sync_resets_or_defers (w : World) (c : Commit) (g gm : GerritChange)
    (s3 s4 : St)
    (h : submitExecutor w (St.init w) = .ok (c, g) s3)
    (hp : pollLoop w c steps g s3 = .ok gm s4) (hm : gm.Status = "MERGED") :
    s4.branchPtr = w.head
      ∧ (w.fetchErr = none → w.b.Pending.length = 1 → w.checkoutErr = none →
          runSubmit w
            = .ok () ⟨s4.trace ++ syncCalls w gm, s4.fetched, gm.CurrentRevision⟩)
      ∧ (2 ≤ w.b.Pending.length →
          (runSubmit w).st.branchPtr = w.head
            ∧ (∀ k ∈ (runSubmit w).st.trace, k.isCheckout = false)
            ∧ (w.fetchErr = none →
                runSubmit w = .ok () ⟨s4.trace ++ deferCalls, s4.fetched, w.head⟩)) := by
  have hrun := runSubmit_of_merged h hp hm
  obtain ⟨hb, hno⟩ := pollLoop_no_checkout h hp
  refine ⟨hb, ?_, ?_⟩
  · intro hf h1 hc
    rw [hrun, reconcile_reset_ok w gm s4 hf h1 hc]
  · intro h2
    have hne : w.b.Pending.length ≠ 1 := by omega
    cases hf : w.fetchErr with
    | none =>
      have hr : runSubmit w = .ok () ⟨s4.trace ++ deferCalls, s4.fetched, w.head⟩ := by
        rw [hrun, reconcile_deferred w gm s4 hf hne, hb]
      refine ⟨by rw [hr]; rfl, ?_, fun _ => hr⟩
      rw [hr]
      intro k hk
      simp only [Res.st] at hk
      rcases List.mem_append.1 hk with hk | hk
      · exact hno k hk
      · simp [deferCalls] at hk
        rcases hk with rfl | rfl <;> rfl
    | some e =>
      have hr := reconcile_fetch_failed w gm s4 e hf
      refine ⟨by rw [hrun, hr]; exact hb, ?_, fun hf2 => by cases hf2⟩
      rw [hrun, hr]
      intro k hk
      simp only [Res.st] at hk
      rcases List.mem_append.1 hk with hk | hk
      · exact hno k hk
      · simp at hk
        subst hk
        rfl

/-- C12 at a concrete world: the first poll answers MERGED and the branch
has two pending commits. -/
theorem sync_resets_or_defers_witness :
    (submitExecutor worldTwoPending (St.init worldTwoPending)
        = .ok (commitX, changeX "NEW") stateXSubmitted
      ∧ pollLoop worldTwoPending commitX steps (changeX "NEW") stateXSubmitted
        = .ok (changeAt "MERGED") ⟨stateXSubmitted.trace ++ pollCalls commitX 0 1, 2, "abc123"⟩
      ∧ (changeAt "MERGED").Status = "MERGED"
      ∧ 2 ≤ worldTwoPending.b.Pending.length)
    ∧ runSubmit worldTwoPending
        = .ok () ⟨stateXSubmitted.trace ++ pollCalls commitX 0 1 ++ deferCalls, 2, "abc123"⟩ :=
  ⟨⟨rfl, rfl, rfl, by decide⟩,
    ((sync_resets_or_defers worldTwoPending commitX (changeX "NEW") (changeAt "MERGED")
      stateXSubmitted ⟨stateXSubmitted.trace ++ pollCalls commitX 0 1, 2, "abc123"⟩
      rfl rfl rfl).2.2 (by decide)).2.2 rfl⟩

/-- C12 as stated fails: the first poll answers MERGED, the branch has two
pending commits and the git fetch fails; the run dies with the error of the
git fetch: it does not return, and no deferral message is printed. -/
theorem no_deferral_when_git_fetch_fails :
    submitExecutor worldTwoPendingFetchFails (St.init worldTwoPendingFetchFails)
        = .ok (commitX, changeX "NEW") stateXSubmitted
      ∧ pollLoop worldTwoPendingFetchFails commitX steps (changeX "NEW") stateXSubmitted
        = .ok (changeAt "MERGED") ⟨stateXSubmitted.trace ++ pollCalls commitX 0 1, 2, "abc123"⟩
      ∧ 2 ≤ worldTwoPendingFetchFails.b.Pending.length
      ∧ runSubmit worldTwoPendingFetchFails
        = .died ⟨"%v", ["fatal: unable to access remote"]⟩
            ⟨stateXSubmitted.trace ++ pollCalls commitX 0 1 ++ [.exec "git" ["fetch", "-q"]],
              2, "abc123"⟩
      ∧ (¬ ∃ s, runSubmit worldTwoPendingFetchFails = .ok () s)
      ∧ Call.printf ⟨"submit succeeded; run 'git sync' to sync", []⟩
          ∉ (runSubmit worldTwoPendingFetchFails).st.trace := by
  have hrun : runSubmit worldTwoPendingFetchFails
      = .died ⟨"%v", ["fatal: unable to access remote"]⟩
          ⟨stateXSubmitted.trace ++ pollCalls commitX 0 1 ++ [.exec "git" ["fetch", "-q"]],
            2, "abc123"⟩ := rfl
  refine ⟨rfl, rfl, by decide, hrun, ?_, ?_⟩
  · rintro ⟨s, hs⟩
    rw [hrun] at hs
    cases hs
  · rw [hrun]
    decide

/-! ## End to end -/

theorem submitExecutor_of_uploadStep {w : World} {c : Commit} {g : GerritChange} {s s2 : St}
    (hu : uploadStep w s = .ok (c, g) s2) (hm : g.Mergeable = true)
    (hn : w.noRun = false) (he : w.submitErr = none) :
    submitExecutor w s
      = .ok (c, g) ⟨s2.trace ++ [submitCall w c], s2.fetched, s2.branchPtr⟩ := by
  simp only [submitExecutor, bind_apply, Cmd.bind, hu, checkMergeable_ok w g s2 hm hn,
    submit_ok w c s2 he, pure_apply]

theorem approvalGate_of_labels {w : World} {c : Commit} {g : GerritChange} {s s1 : St}
    (h : fetchChange w s = .ok (c, g) s1)
    (hs : g.Status = "NEW" ∨ g.Status = "SUBMITTED")
    (hl : ∀ name label, g.Labels.lookup name = some label →
      label.Optional = false → label.Approved ≠ none ∧ label.Rejected = none) :
    approvalGate w s = .ok (c, g) s1 := by
  rw [approvalGate_of_fetch h hs]
  simp only [Cmd.bind, (checkLabels_ok_iff g s1 s1).2 ⟨rfl, hl⟩, Cmd.pure]

/-- The one label of the example changes is approved and not rejected. -/
theorem labelOK_only (name : String) (label : GerritLabel)
    (h : List.lookup name [("Code-Review", labelOK)] = some label) :
    label.Approved ≠ none ∧ label.Rejected = none := by
  simp only [List.lookup] at h
  split at h
  · cases h
    exact ⟨by decide, rfl⟩
  · cases h

/-- C17 (scenario A): on a clean workspace, not in a dry run, when the first
fetched change has status NEW, every label approved and not rejected, the
revision of the commit, and is mergeable, the submit request succeeds, the
first poll answers MERGED, the git fetch succeeds, the branch has one pending
commit and the checkout succeeds, then the run returns; its trace is the two
workspace checks, the fetch, the submit request, one sleep and one poll
fetch, the git fetch and the checkout: no push, one submit request, one poll;
and the branch pointer is the current revision of the merged change. -/
theorem scenario_new_approved_merged (w : World) (c : Commit) (g gm : GerritChange)
    (hargs : w.flagArgs.length ≤ 1) (hc : selectCommit w = .ok c)
    (hst : w.staged = none) (hun : w.unstaged = none) (hn : w.noRun = false)
    (hg : w.gerritChange 0 = .ok g) (hnew : g.Status = "NEW")
    (hl : ∀ name label, g.Labels.lookup name = some label →
      label.Approved ≠ none ∧ label.Rejected = none)
    (hrev : c.Hash = g.CurrentRevision) (hm : g.Mergeable = true)
    (hsub : w.submitErr = none)
    (hpoll : w.gerritChange 1 = .ok gm) (hmerged : gm.Status = "MERGED")
    (hf : w.fetchErr = none) (h1 : w.b.Pending.length = 1) (hco : w.checkoutErr = none) :
    runSubmit w
        = .ok () ⟨fetchCalls c ++ [submitCall w c] ++ pollCalls c 0 1 ++ syncCalls w gm, 2,
            gm.CurrentRevision⟩
      ∧ (fetchCalls c ++ [submitCall w c] ++ pollCalls c 0 1 ++ syncCalls w gm).filter
          Call.isPush = []
      ∧ (fetchCalls c ++ [submitCall w c] ++ pollCalls c 0 1 ++ syncCalls w gm).filter
          Call.isSubmit = [submitCall w c]
      ∧ pollCalls c 0 1 = [.sleep 62500000, changeCall c]
      ∧ (runSubmit w).st.branchPtr = gm.CurrentRevision := by
  have hfetch := fetchChange_ok w c g (St.init w) hargs hc hst hun hg
  simp only [St.init, List.nil_append, Nat.zero_add] at hfetch
  have hgate := approvalGate_of_labels hfetch (Or.inl hnew)
    (fun name label hlk _ => hl name label hlk)
  have hup := uploadStep_of_upload hgate (upload_same w c g _ hrev)
  have hexec := submitExecutor_of_uploadStep hup hm hn hsub
  have hne : gm.Status ≠ "SUBMITTED" := by rw [hmerged]; decide
  have hloop := pollLoop_stops w c gm 0 steps g
    ⟨fetchCalls c ++ [submitCall w c], 1, w.head⟩ (Nat.le_refl _) (by decide)
    (fun j hj => absurd hj (Nat.not_lt_zero j)) hpoll hne
  simp only [Nat.sub_self] at hloop
  have hrun : runSubmit w
      = .ok () ⟨fetchCalls c ++ [submitCall w c] ++ pollCalls c 0 1 ++ syncCalls w gm, 2,
          gm.CurrentRevision⟩ := by
    rw [runSubmit_of_merged hexec hloop hmerged, reconcile_reset_ok w gm _ hf h1 hco]
  refine ⟨hrun, ?_, ?_, ?_, ?_⟩
  · simp [fetchCalls, pollCalls, syncCalls, submitCall, changeCall, List.filter, Call.isPush]
  · simp [fetchCalls, pollCalls, syncCalls, submitCall, changeCall, List.filter, Call.isSubmit]
  · simp only [pollCalls]
    rfl
  · rw [hrun]
    rfl

/-- C17 at a concrete world. -/
theorem scenario_new_approved_merged_witness :
    ((worldX [.ok (changeX "NEW"), .ok (changeAt "MERGED")]).gerritChange 0
        = .ok (changeX "NEW")
      ∧ (worldX [.ok (changeX "NEW"), .ok (changeAt "MERGED")]).gerritChange 1
        = .ok (changeAt "MERGED")
      ∧ commitX.Hash = (changeX "NEW").CurrentRevision)
    ∧ runSubmit (worldX [.ok (changeX "NEW"), .ok (changeAt "MERGED")])
        = .ok () ⟨fetchCalls commitX
            ++ [submitCall (worldX [.ok (changeX "NEW"), .ok (changeAt "MERGED")]) commitX]
            ++ pollCalls commitX 0 1
            ++ syncCalls (worldX [.ok (changeX "NEW"), .ok (changeAt "MERGED")])
                (changeAt "MERGED"), 2, "def456"⟩ :=
  ⟨⟨rfl, rfl, rfl⟩,
    (scenario_new_approved_merged (worldX [.ok (changeX "NEW"), .ok (changeAt "MERGED")])
      commitX (changeX "NEW") (changeAt "MERGED") (by decide) rfl rfl rfl rfl rfl rfl
      labelOK_only rfl rfl rfl rfl rfl rfl (by decide) rfl).1⟩

/-! ## A change that is already queued -/

theorem no_push_of_same_revision {w : World} {c : Commit} {g : GerritChange} {s1 : St}
    (h : approvalGate w (St.init w) = .ok (c, g) s1) (heq : c.Hash = g.CurrentRevision) :
    runSubmit w = afterUpload w c g s1 ∧ ∀ k ∈ (runSubmit w).st.trace, k.isPush = false := by
  have hrun : runSubmit w = afterUpload w c g s1 :=
    cmdSubmit_of_upload h (upload_same w c g s1 heq)
  refine ⟨hrun, ?_⟩
  obtain ⟨hs1, _⟩ := approvalGate_state h
  obtain ⟨ext, he, hp⟩ := afterUpload_no_push w c g s1
  rw [hrun, he]
  intro k hk
  rcases List.mem_append.1 hk with hk | hk
  · rw [hs1] at hk
    exact (mem_fetchCalls hk).1
  · exact hp k hk

theorem one_push_of_other_revision {w : World} {c : Commit} {g : GerritChange} {s1 : St}
    (h : approvalGate w (St.init w) = .ok (c, g) s1) (hne : c.Hash ≠ g.CurrentRevision) :
    (runSubmit w).st.trace.filter Call.isPush = [pushCall w c] := by
  obtain ⟨rfl, _⟩ := approvalGate_state h
  have hsub : runSubmit w = submitChange w c g ⟨fetchCalls c, 1, w.head⟩ :=
    cmdSubmit_of_approvalGate h
  have hfilter : (fetchCalls c ++ [pushCall w c, changeCall c]).filter Call.isPush
      = [pushCall w c] := by
    simp [fetchCalls, List.filter, Call.isPush, pushCall, changeCall]
  cases hp : w.pushErr with
  | some e =>
    have hu := upload_push_failed w c g ⟨fetchCalls c, 1, w.head⟩ e hne hp
    rw [hsub]
    simp only [submitChange, bind_apply, Cmd.bind, hu, Res.st]
    simp [fetchCalls, List.filter, Call.isPush, pushCall]
  | none =>
    cases hg : w.gerritChange 1 with
    | error e =>
      have hu := upload_refetch_failed w c g ⟨fetchCalls c, 1, w.head⟩ e hne hp hg
      rw [hsub]
      simp only [submitChange, bind_apply, Cmd.bind, hu, Res.st]
      exact hfilter
    | ok g1 =>
      have hrun : runSubmit w = afterUpload w c g1 _ :=
        cmdSubmit_of_upload h (upload_push_refetch w c g g1 _ hne hp hg)
      obtain ⟨ext, he, hx⟩ := afterUpload_no_push w c g1
        ⟨fetchCalls c ++ [pushCall w c, changeCall c], 2, w.head⟩
      rw [hrun, he, List.filter_append, hfilter, filter_eq_nil_of_forall hx]
      rfl

/-- The steps after the label check do not read the status of the first
fetched change. -/
theorem submitChange_status (w : World) (c : Commit) (g : GerritChange) (status : String)
    (s : St) :
    submitChange w c { g with Status := status } s = submitChange w c g s := by
  by_cases heq : c.Hash = g.CurrentRevision
  · simp only [submitChange, bind_apply, Cmd.bind, upload_same w c g s heq,
      upload_same w c { g with Status := status } s heq]
    rfl
  · have hu : upload w c { g with Status := status } s = upload w c g s := by
      simp [upload, heq]
    simp only [submitChange, bind_apply, Cmd.bind, hu]

/-- C18, as the code has it: when the first fetched change has status
SUBMITTED and its required labels are approved and not rejected, the run goes
on after the label check as it does for status NEW; the push is skipped when
the hash of the commit equals the current revision of the change, and then
the run goes straight to the submit request and the polling loop if the
change is mergeable and the run is not a dry run; when the hash differs the
run makes one git push. -/
theorem queued_change_goes_on_as_new (w : World) (c : Commit) (g : GerritChange) (s1 : St)
    (h : fetchChange w (St.init w) = .ok (c, g) s1) (hs : g.Status = "SUBMITTED")
    (hl : ∀ name label, g.Labels.lookup name = some label →
      label.Optional = false → label.Approved ≠ none ∧ label.Rejected = none) :
    approvalGate w (St.init w) = .ok (c, g) s1
      ∧ runSubmit w = submitChange w c g s1
      ∧ submitChange w c g s1 = submitChange w c { g with Status := "NEW" } s1
      ∧ (c.Hash = g.CurrentRevision →
          (∀ k ∈ (runSubmit w).st.trace, k.isPush = false) ∧
          (g.Mergeable = true → w.noRun = false →
            runSubmit w = (submit w c >>= fun _ => mergeWait w c g) s1))
      ∧ (c.Hash ≠ g.CurrentRevision →
          (runSubmit w).st.trace.filter Call.isPush = [pushCall w c]) := by
  have hgate := approvalGate_of_labels h (Or.inr hs) hl
  refine ⟨hgate, cmdSubmit_of_approvalGate hgate, (submitChange_status w c g "NEW" s1).symm,
    ?_, ?_⟩
  · intro heq
    obtain ⟨hrun, hno⟩ := no_push_of_same_revision hgate heq
    refine ⟨hno, fun hm hn => ?_⟩
    rw [hrun, afterUpload_mergeable w c g s1 hm hn]
  · exact fun hne => one_push_of_other_revision hgate hne

/-- C18 as stated fails: the first fetch answers SUBMITTED with the label
approved, at an older revision than the commit; the push is not skipped. -/
theorem queued_change_is_pushed :
    fetchChange (worldX answersQueued) (St.init (worldX answersQueued))
        = .ok (commitX, changeQueuedOld) stateX
      ∧ changeQueuedOld.Status = "SUBMITTED"
      ∧ approvalGate (worldX answersQueued) (St.init (worldX answersQueued))
        = .ok (commitX, changeQueuedOld) stateX
      ∧ (runSubmit (worldX answersQueued)).st.trace.filter Call.isPush
        = [.exec "git" ["push", "-q", "origin", "HEAD:refs/for/master"]]
      ∧ ¬ ∀ k ∈ (runSubmit (worldX answersQueued)).st.trace, k.isPush = false := by
  have hpush : (runSubmit (worldX answersQueued)).st.trace.filter Call.isPush
      = [.exec "git" ["push", "-q", "origin", "HEAD:refs/for/master"]] := by decide
  refine ⟨rfl, rfl, rfl, hpush, ?_⟩
  intro hall
  rw [filter_eq_nil_of_forall hall] at hpush
  cases hpush

/-- C18 as amended, at a concrete world: the first fetch answers SUBMITTED at
the revision of the commit. -/
theorem queued_change_goes_on_as_new_witness :
    (fetchChange (worldX [.ok (changeX "SUBMITTED"), .ok (changeAt "MERGED")])
          (St.init (worldX [.ok (changeX "SUBMITTED"), .ok (changeAt "MERGED")]))
        = .ok (commitX, changeX "SUBMITTED") stateX
      ∧ (changeX "SUBMITTED").Status = "SUBMITTED"
      ∧ commitX.Hash = (changeX "SUBMITTED").CurrentRevision)
    ∧ ∀ k ∈ (runSubmit (worldX [.ok (changeX "SUBMITTED"), .ok (changeAt "MERGED")])).st.trace,
        k.isPush = false :=
  ⟨⟨rfl, rfl, rfl⟩,
    ((queued_change_goes_on_as_new (worldX [.ok (changeX "SUBMITTED"), .ok (changeAt "MERGED")])
      commitX (changeX "SUBMITTED") stateX rfl rfl
      (fun name label hlk _ => labelOK_only name label hlk)).2.2.2.1 rfl).1⟩

end GitCodereview
